import Mathlib

/-! slackoverload: trigger definitions, rendering and dispatch.

A shallow embedding of `slack.go`.  Go strings are modelled as lists of Unicode
code points (`Str`), Go's `(value, error)` results as pairs whose second
component is `none` for a nil error, `int64` values as integers wrapped with
`wrap64`.  The standard-library routines the file calls (`regexp`, `strconv.Atoi`,
`time.ParseDuration`, `time.Duration.String`, `strings.*`) are modelled after
Go's documented behaviour; the Slack API client, the blob store and the token
lookup are collaborators whose answers are parameters.  Log lines written with
`fmt.Printf` are left out.
-/

namespace Slackoverload

/-- Go strings, read as sequences of code points. -/
abbrev Str := List Char

/-! ## Regular expressions (the fragment of RE2 syntax used by `slack.go`) -/

/-- Regular expressions.  In the two patterns of `slack.go` repetition is only
ever applied to a single-character class, so `star` and `plus` take a class. -/
inductive Regex where
  | eps : Regex
  | bot : Regex
  | eot : Regex
  | cls (p : Char → Bool) : Regex
  | cat (a b : Regex) : Regex
  | opt (a : Regex) : Regex
  | star (p : Char → Bool) : Regex
  | plus (p : Char → Bool) : Regex
  | cap (i : Nat) (a : Regex) : Regex

/-- Capture slots: slot `i` holds the text of group `i`, empty when unset. -/
abbrev Caps := List Str

/-- Text consumed between the remaining input `s` and the later remaining input `t`. -/
def consumed (s t : Str) : Str := s.take (s.length - t.length)

/-- Greedy repetition of a class: take as many characters as possible, then
give characters back one at a time until the continuation succeeds. -/
def starGo {R : Type} (p : Char → Bool) (k : Str → Option R) : Str → Option R
  | [] => k []
  | x :: t =>
    if p x then
      match starGo p k t with
      | some r => some r
      | none => k (x :: t)
    else k (x :: t)

/-- Backtracking matcher with leftmost-first (Perl/RE2) preference.  `n` is the
length of the whole text, so that `^` holds exactly when nothing of the text
precedes the remaining input. -/
def Regex.run {R : Type} (n : Nat) : Regex → Str → Caps → (Str → Caps → Option R) → Option R
  | .eps, s, c, k => k s c
  | .bot, s, c, k => if s.length = n then k s c else none
  | .eot, s, c, k => if s = [] then k s c else none
  | .cls p, s, c, k =>
    match s with
    | [] => none
    | x :: t => if p x then k t c else none
  | .cat a b, s, c, k => Regex.run n a s c (fun s1 c1 => Regex.run n b s1 c1 k)
  | .opt a, s, c, k =>
    match Regex.run n a s c k with
    | some r => some r
    | none => k s c
  | .star p, s, c, k => starGo p (fun s1 => k s1 c) s
  | .plus p, s, c, k =>
    match s with
    | [] => none
    | x :: t => if p x then starGo p (fun s1 => k s1 c) t else none
  | .cap i a, s, c, k => Regex.run n a s c (fun s1 c1 => k s1 (c1.set i (consumed s s1)))

/-- One match attempt starting at the remaining input `s`; slot 0 is the whole match. -/
def matchAt (re : Regex) (groups n : Nat) (s : Str) : Option (List Str) :=
  re.run n s (List.replicate (groups + 1) []) (fun s1 c => some (c.set 0 (consumed s s1)))

/-- Leftmost search: try every start offset in turn. -/
def searchFrom (re : Regex) (groups n : Nat) : Str → Option (List Str)
  | [] => matchAt re groups n []
  | x :: t =>
    match matchAt re groups n (x :: t) with
    | some r => some r
    | none => searchFrom re groups n t

/-- Model of `(*regexp.Regexp).FindStringSubmatch`: the whole match followed by the text of
each group, or the empty (nil) slice when there is no match. -/
def FindStringSubmatch (re : Regex) (groups : Nat) (text : Str) : List Str :=
  (searchFrom re groups text.length text).getD []

/-- A literal character. -/
def lit (c : Char) : Regex := .cls (fun x => x == c)

/-- Concatenation of a list of expressions. -/
def cats : List Regex → Regex
  | [] => .eps
  | a :: rest => .cat a (cats rest)

/-- A literal string. -/
def str (s : String) : Regex := cats (s.toList.map lit)

/-- The Perl class `\d` (ASCII digits in RE2). -/
def isDigit (c : Char) : Bool := decide (48 ≤ c.toNat ∧ c.toNat ≤ 57)

/-- The Perl class `\w` (ASCII word characters in RE2). -/
def isWord (c : Char) : Bool :=
  isDigit c || decide (65 ≤ c.toNat ∧ c.toNat ≤ 90) || c == '_' ||
    decide (97 ≤ c.toNat ∧ c.toNat ≤ 122)

/-- The class `[\w-_]`. -/
def isNameChar (c : Char) : Bool := isWord c || c == '-' || c == '_'

/-- The class `.` without the `s` flag: anything but a newline. -/
def isDot (c : Char) : Bool := c != '\n'

/-- The class `[ ]`. -/
def isSpace (c : Char) : Bool := c == ' '

/-- The class `[wdhms]`. -/
def isUnitChar (c : Char) : Bool := c == 'w' || c == 'd' || c == 'h' || c == 'm' || c == 's'

/-- The class `[wd]`. -/
def isDayWeek (c : Char) : Bool := c == 'w' || c == 'd'

/-- The optional suffix `( DND)?`. -/
def dndOpt : Regex := .opt (.cap 4 (str " DND"))

/-- The optional suffix `(?: for (\d[wdhms]+))?`. -/
def forOpt : Regex :=
  .opt (.cat (str " for ") (.cap 5 (.cat (.cls isDigit) (.plus isUnitChar))))

/-- The end of the template pattern after the emoji: `\)( DND)?(?: for (\d[wdhms]+))?$`. -/
def afterEmoji : Regex := cats [lit ')', dndOpt, forOpt, .eot]

/-- The tail of the template pattern from the emoji group on:
`(.*)\)( DND)?(?: for (\d[wdhms]+))?$`. -/
def emojiTail : Regex := .cat (.cap 3 (.star isDot)) afterEmoji

/-- The tail of the template pattern after the optional status text: `[ ]+\(` and the rest. -/
def parenTail : Regex := cats [.plus isSpace, lit '(', emojiTail]

/-- The status text with its optional leading space, `[ ]?(.+)`. -/
def statusText : Regex := .cat (.opt (lit ' ')) (.cap 2 (.plus isDot))

/-- The optional status text `(?:[ ]?(.+))?`. -/
def statusGroup : Regex := .opt statusText

/-- The pattern of `parseTemplate`:
`^([\w-_]+)[ ]?=(?:[ ]?(.+))?[ ]+\((.*)\)( DND)?(?: for (\d[wdhms]+))?$`. -/
def templatePattern : Regex :=
  cats [.bot, .cap 1 (.plus isNameChar), .opt (lit ' '), lit '=', statusGroup, parenTail]

/-- The pattern of `parseDuration`: `^(\d+)([wd])$`. -/
def shorthandPattern : Regex :=
  cats [.bot, .cap 1 (.plus isDigit), .cap 2 (.cls isDayWeek), .eot]

/-! ## Errors -/

/-- Errors, one constructor per construction site; `other` is an error produced by a
collaborator (the Slack API, the blob store, the secret vault), known only by its text. -/
inductive Err where
  | invalidDefinition (definition : Str) : Err
  | invalidDurationIn (literal : Str) : Err
  | timeInvalidDuration (orig : Str) : Err
  | timeMissingUnit (orig : Str) : Err
  | timeUnknownUnit (u orig : Str) : Err
  | atoiSyntax (s : Str) : Err
  | atoiRange (s : Str) : Err
  | notRegistered (name : Str) : Err
  | other (text : Str) : Err
  | wrap (cause : Err) (context : Str) : Err
  deriving DecidableEq, Repr

/-- The message of an error; `quote` stands for the `%q` verb (`strconv.Quote`). -/
def Err.message (quote : Str → Str) : Err → Str
  | .invalidDefinition d =>
    "Invalid trigger definition ".toList ++ quote d ++
      ". Try /create-trigger vacation = I'm on a boat! (⛵️) DND for 1w".toList
  | .invalidDurationIn l =>
    "invalid duration in trigger definition ".toList ++ quote l ++
      ", here are some examples: 15m, 1h, 2d, 1w".toList
  | .timeInvalidDuration o => "time: invalid duration ".toList ++ quote o
  | .timeMissingUnit o => "time: missing unit in duration ".toList ++ quote o
  | .timeUnknownUnit u o =>
    "time: unknown unit ".toList ++ quote u ++ " in duration ".toList ++ quote o
  | .atoiSyntax s => "strconv.Atoi: parsing ".toList ++ quote s ++ ": invalid syntax".toList
  | .atoiRange s => "strconv.Atoi: parsing ".toList ++ quote s ++ ": value out of range".toList
  | .notRegistered n => "trigger ".toList ++ n ++ " not registered".toList
  | .other t => t
  | .wrap e c => c ++ ": ".toList ++ Err.message quote e

/-! ## Machine integers and the standard-library routines -/

/-- Two's-complement wrap-around of an integer to `int64`. -/
def wrap64 (x : Int) : Int := (x + 2 ^ 63) % 2 ^ 64 - 2 ^ 63

/-- Value of a string of decimal digits. -/
def digitsValue (ds : Str) : Nat := ds.foldl (fun n c => n * 10 + (c.toNat - 48)) 0

/-- Model of `strconv.Atoi` with a 64-bit `int`: an optional sign and decimal digits; a value
outside `int64` is a range error (with the clamped value), anything else a syntax error. -/
def Atoi (s : Str) : Int × Option Err :=
  let neg := s.head? == some '-'
  let ds := if s.head? == some '-' || s.head? == some '+' then s.tail else s
  if ds = [] ∨ ds.all isDigit = false then (0, some (.atoiSyntax s))
  else if neg then
    if digitsValue ds ≤ 2 ^ 63 then (-(digitsValue ds : Int), none)
    else (-(2 ^ 63), some (.atoiRange s))
  else if digitsValue ds < 2 ^ 63 then ((digitsValue ds : Int), none)
  else (2 ^ 63 - 1, some (.atoiRange s))

/-- Nanoseconds in `time.Nanosecond` .. `time.Hour`. -/
def Microsecond : Int := 1000
def Millisecond : Int := 1000 * Microsecond
def Second : Int := 1000 * Millisecond
def Minute : Int := 60 * Second
def Hour : Int := 60 * Minute

/-- The constants `day` and `week` of `slack.go`. -/
def day : Int := 24 * Hour
def week : Int := 7 * day

/-- Model of `time.leadingInt`: the leading digits as a number (at most `2^63`), the rest of
the string, and whether the number overflowed. -/
def leadingInt : Str → Nat → Nat × Str × Bool
  | [], x => (x, [], false)
  | c :: t, x =>
    if isDigit c then
      if x > 2 ^ 63 / 10 then (0, [], true)
      else if x * 10 + (c.toNat - 48) > 2 ^ 63 then (0, [], true)
      else leadingInt t (x * 10 + (c.toNat - 48))
    else (x, c :: t, false)

/-- Model of `time.leadingFraction`: digits after the point as a number and a power-of-ten
scale; digits that would overflow are dropped. -/
def leadingFraction : Str → Nat → Nat → Bool → Nat × Nat × Str
  | [], x, scale, _ => (x, scale, [])
  | c :: t, x, scale, overflow =>
    if isDigit c then
      if overflow then leadingFraction t x scale true
      else if x > (2 ^ 63 - 1) / 10 then leadingFraction t x scale true
      else if x * 10 + (c.toNat - 48) > 2 ^ 63 then leadingFraction t x scale true
      else leadingFraction t (x * 10 + (c.toNat - 48)) (scale * 10) false
    else (x, scale, c :: t)

/-- The unit table `time.unitMap`, in nanoseconds. -/
def unitMap (u : Str) : Option Nat :=
  if u = "ns".toList then some 1
  else if u = "us".toList then some 1000
  else if u = "µs".toList then some 1000
  else if u = "μs".toList then some 1000
  else if u = "ms".toList then some 1000000
  else if u = "s".toList then some 1000000000
  else if u = "m".toList then some 60000000000
  else if u = "h".toList then some 3600000000000
  else none

/-- Characters that end a unit name in `time.ParseDuration`. -/
def isNumberChar (c : Char) : Bool := c == '.' || isDigit c

/-- One turn of the loop of `time.ParseDuration`: read one `number unit` term at the head of
the non-empty string `s` and add it to the unsigned 64-bit total `d`; the result is the rest
of the string and the new total.  The contribution of a fractional part is computed exactly
where Go uses `float64`. -/
def parseTerm (orig s : Str) (d : Nat) : Except Err (Str × Nat) :=
  if (s.head?.map isNumberChar).getD false = false then .error (.timeInvalidDuration orig)
  else
    let li := leadingInt s 0
    if li.2.2 then .error (.timeInvalidDuration orig)
    else
      let pre := li.2.1.length != s.length
      let lf := if li.2.1.head? == some '.' then leadingFraction li.2.1.tail 0 1 false
                else (0, 1, li.2.1)
      let post := li.2.1.head? == some '.' && lf.2.2.length != li.2.1.tail.length
      if pre = false ∧ post = false then .error (.timeInvalidDuration orig)
      else
        let u := lf.2.2.takeWhile (fun c => !isNumberChar c)
        let rest := lf.2.2.dropWhile (fun c => !isNumberChar c)
        if u = [] then .error (.timeMissingUnit orig)
        else
          match unitMap u with
          | none => .error (.timeUnknownUnit u orig)
          | some unit =>
            if li.1 > 2 ^ 63 / unit then .error (.timeInvalidDuration orig)
            else
              let v := li.1 * unit + lf.1 * unit / lf.2.1
              if lf.1 > 0 ∧ v > 2 ^ 63 then .error (.timeInvalidDuration orig)
              else if (d + v) % 2 ^ 64 > 2 ^ 63 then .error (.timeInvalidDuration orig)
              else .ok (rest, (d + v) % 2 ^ 64)

/-- The loop `for s != ""` of `time.ParseDuration`.  Every term consumes at least one
character, so a fuel equal to the length of the string is never exhausted
(`parseTerms_fuel`). -/
def parseTerms (orig : Str) : Nat → Str → Nat → Nat × Option Err
  | 0, _, d => (d, none)
  | fuel + 1, s, d =>
    if s = [] then (d, none)
    else
      match parseTerm orig s d with
      | .error e => (0, some e)
      | .ok (rest, d1) => parseTerms orig fuel rest d1

/-- Model of `time.ParseDuration`: an optional sign, then one or more `number unit` terms
with units `ns`, `us`, `µs`, `ms`, `s`, `m`, `h`; the result is in nanoseconds. -/
def ParseDuration (s : Str) : Int × Option Err :=
  let neg := s.head? == some '-'
  let body := if s.head? == some '-' || s.head? == some '+' then s.tail else s
  if body = ['0'] then (0, none)
  else if body = [] then (0, some (.timeInvalidDuration s))
  else
    match parseTerms s body.length body 0 with
    | (_, some e) => (0, some e)
    | (d, none) =>
      if neg then (wrap64 (-(d : Int)), none)
      else if d > 2 ^ 63 - 1 then (0, some (.timeInvalidDuration s))
      else ((d : Int), none)

/-- Model of `int64(d.Minutes())`: whole minutes, truncated toward zero.  `Minutes` computes
`float64(d / Minute) + float64(d % Minute) / 6e10`; the truncation of that sum is `d / Minute`
whenever `d` is a whole number of minutes or below `2^18` minutes, which covers every
duration `parseTemplate` can produce (at most nine weeks). -/
def minutesInt64 (d : Int) : Int := Int.tdiv d Minute

/-- Model of `time.fmtFrac`: the fraction of `v / 10^prec` without trailing zeros (and
without the point when it is zero), together with `v / 10^prec`. -/
def fmtFrac : Nat → Nat → Bool → Str → Str × Nat
  | 0, v, pr, acc => (if pr then '.' :: acc else acc, v)
  | prec + 1, v, pr, acc =>
    fmtFrac prec (v / 10) (pr || v % 10 != 0)
      (if pr || v % 10 != 0 then Nat.digitChar (v % 10) :: acc else acc)

/-- Model of `time.fmtInt`: decimal digits. -/
def fmtInt (v : Nat) : Str := Nat.toDigits 10 v

/-- Model of `time.Duration.String` for a count `d` of nanoseconds: hours, minutes and seconds
as in `72h3m0.5s`, smaller units (`ns`, `µs`, `ms`) below one second, and `0s` for zero. -/
def DurationString (d : Int) : Str :=
  let u := d.natAbs
  let body :=
    if u < 1000000000 then
      if u = 0 then "0s".toList
      else if u < 1000 then fmtInt u ++ "ns".toList
      else if u < 1000000 then
        fmtInt (fmtFrac 3 u false []).2 ++ (fmtFrac 3 u false []).1 ++ "µs".toList
      else fmtInt (fmtFrac 6 u false []).2 ++ (fmtFrac 6 u false []).1 ++ "ms".toList
    else
      let secs := (fmtFrac 9 u false []).2
      let sText := fmtInt (secs % 60) ++ (fmtFrac 9 u false []).1 ++ "s".toList
      if secs / 60 > 0 then
        let mText := fmtInt (secs / 60 % 60) ++ "m".toList ++ sText
        if secs / 60 / 60 > 0 then fmtInt (secs / 60 / 60) ++ "h".toList ++ mText else mText
      else sText
  if d < 0 then '-' :: body else body

/-! ## The data model of `slack.go` -/

/-- The constants `PresenceAway` and `PresenceActive`. -/
def PresenceAway : Str := "away".toList
def PresenceActive : Str := "auto".toList

/-- The struct `Action`. -/
structure Action where
  Presence : Str
  StatusText : Str
  StatusEmoji : Str
  DnD : Bool
  Duration : Int
  deriving DecidableEq, Repr

/-- The struct `ActionTemplate` (which embeds `Action`). -/
structure ActionTemplate extends Action where
  Name : Str
  TeamId : Str
  deriving DecidableEq, Repr

/-- The zero value `ActionTemplate{}`. -/
def ActionTemplate.zero : ActionTemplate :=
  { Presence := [], StatusText := [], StatusEmoji := [], DnD := false, Duration := 0,
    Name := [], TeamId := [] }

/-- The method `ActionTemplate.ToString`. -/
def ActionTemplate.ToString (t : ActionTemplate) : Str :=
  let statusText := if t.StatusText ≠ [] then " ".toList ++ t.StatusText else []
  let emojiText := if t.StatusEmoji ≠ [] then " (".toList ++ t.StatusEmoji ++ ")".toList else []
  let dndText := if t.DnD then " DND".toList else []
  let durationText :=
    if t.Duration ≠ 0 then " for ".toList ++ DurationString t.Duration else []
  t.Name ++ " = ".toList ++ statusText ++ emojiText ++ dndText ++ durationText

/-! ## Parsing -/

/-- The function `parseDuration`. -/
def parseDuration (value : Str) : Int × Option Err :=
  if value = [] then (0, none)
  else
    let m := FindStringSubmatch shorthandPattern 2 value
    if m.length = 0 then ParseDuration value
    else
      let num := Atoi (m.getD 1 [])
      if num.2.isSome then (0, num.2)
      else
        let unit : Int :=
          if m.getD 2 [] = "d".toList then day
          else if m.getD 2 [] = "w".toList then week
          else 0
        (wrap64 (num.1 * unit), none)

/-- The function `parseTemplate`. -/
def parseTemplate (definition : Str) : ActionTemplate × Option Err :=
  let m := FindStringSubmatch templatePattern 5 definition
  if m.length = 0 then (ActionTemplate.zero, some (.invalidDefinition definition))
  else
    let duration := parseDuration (m.getD 5 [])
    if duration.2.isSome then (ActionTemplate.zero, some (.invalidDurationIn (m.getD 5 [])))
    else
      ({ Name := m.getD 1 [], TeamId := [],
         Presence := PresenceAway,
         StatusText := m.getD 2 [],
         StatusEmoji := m.getD 3 [],
         DnD := decide (m.getD 4 [] ≠ []),
         Duration := minutesInt64 duration.1 }, none)

/-- Declarative reading of a regular expression: `Lang n re s t` holds when `re` can consume a
prefix of the remaining input `s` and leave `t`. -/
def Regex.Lang (n : Nat) : Regex → Str → Str → Prop
  | .eps, s, t => t = s
  | .bot, s, t => s.length = n ∧ t = s
  | .eot, s, t => s = [] ∧ t = s
  | .cls p, s, t => ∃ x, p x = true ∧ s = x :: t
  | .cat a b, s, t => ∃ m, Regex.Lang n a s m ∧ Regex.Lang n b m t
  | .opt a, s, t => Regex.Lang n a s t ∨ t = s
  | .star p, s, t => ∃ a, s = a ++ t ∧ ∀ x ∈ a, p x = true
  | .plus p, s, t => ∃ a, a ≠ [] ∧ s = a ++ t ∧ ∀ x ∈ a, p x = true
  | .cap _ a, s, t => Regex.Lang n a s t

/-- The optional duration clause of a definition: nothing, or ` for ` and a digit followed by
one or more unit letters. -/
def ForClause (F : Str) : Prop :=
  F = [] ∨ ∃ d us, F = " for ".toList ++ d :: us ∧ isDigit d = true ∧ us ≠ [] ∧
    ∀ u ∈ us, isUnitChar u = true

/-- The strings matched by the tail `[ ]+\((.*)\)( DND)?(?: for (\d[wdhms]+))?$`. -/
def ParenTailShape (y : Str) : Prop :=
  ∃ sp e D F, y = sp ++ '(' :: (e ++ ')' :: (D ++ F)) ∧ sp ≠ [] ∧
    (∀ x ∈ sp, isSpace x = true) ∧ (∀ x ∈ e, isDot x = true) ∧
    (D = [] ∨ D = " DND".toList) ∧ ForClause F

/-! ## The Slack API and the blob store (collaborators) -/

/-- The struct `SlackPayload`. -/
structure SlackPayload where
  UserId : Str
  UserName : Str
  TeamId : Str
  TeamName : Str
  deriving DecidableEq, Repr

/-- A call made on the Slack API client, with its arguments. -/
inductive SlackCall where
  | SetUserPresence (presence : Str) : SlackCall
  | SetUserCustomStatus (statusText statusEmoji : Str) (statusExpiration : Int) : SlackCall
  | GetDNDInfo (user : Str) : SlackCall
  | EndSnooze : SlackCall
  | SetSnooze (minutes : Int) : SlackCall
  deriving DecidableEq, Repr

/-- The Slack API client as a collaborator with a state of its own: every method answers from
the current state and moves to a new one.  A method's error is known by its text; `GetDNDInfo`
also answers the `SnoozeEnabled` flag. -/
structure SlackApi (σ : Type) where
  SetUserPresence : σ → Str → Option Str × σ
  SetUserCustomStatus : σ → Str → Str → Int → Option Str × σ
  GetDNDInfo : σ → Str → (Bool × Option Str) × σ
  EndSnooze : σ → Option Str × σ
  SetSnooze : σ → Int → Option Str × σ

/-- Model of `errors.Wrap(err, context)` on a collaborator's error. -/
def wrapText (text : Str) (context : String) : Err := .wrap (.other text) context.toList

/-- The function `updateSlackStatus`.  `token` is the answer of `getSlackToken`, `s0` the state
of the Slack service before the call; the result is the returned error and the state in which
the calls made leave the service. -/
def updateSlackStatus {σ : Type} (token : Str × Option Err) (api : SlackApi σ) (s0 : σ)
    (payload : SlackPayload) (action : Action) : Option Err × σ :=
  match token.2 with
  | some e => (some e, s0)
  | none =>
    let r1 := api.SetUserPresence s0 action.Presence
    match r1.1 with
    | some e => (some (wrapText e "could not set presence"), r1.2)
    | none =>
      let r2 := api.SetUserCustomStatus r1.2 action.StatusText action.StatusEmoji action.Duration
      match r2.1 with
      | some e => (some (wrapText e "could not set status"), r2.2)
      | none =>
        if action.DnD = false then
          let r3 := api.GetDNDInfo r2.2 payload.UserId
          match r3.1.2 with
          | some e => (some (wrapText e "could not retrieve user's current DND state"), r3.2)
          | none =>
            if r3.1.1 = true then
              let r4 := api.EndSnooze r3.2
              match r4.1 with
              | some e => (some (wrapText e "could not end do not disturb"), r4.2)
              | none => (none, r4.2)
            else (none, r3.2)
        else
          let r3 := api.SetSnooze r2.2 action.Duration
          match r3.1 with
          | some e => (some (wrapText e "could not set do not disturb"), r3.2)
          | none => (none, r3.2)

/-- A Slack service that records the calls it receives: its state is the state of the service
`api` together with the calls received so far, in order; every method answers as `api` does
and appends the call, with the arguments it was given, to the record. -/
def recording {σ : Type} (api : SlackApi σ) : SlackApi (σ × List SlackCall) where
  SetUserPresence := fun s presence =>
    ((api.SetUserPresence s.1 presence).1,
      ((api.SetUserPresence s.1 presence).2, s.2 ++ [.SetUserPresence presence]))
  SetUserCustomStatus := fun s text emoji expiration =>
    ((api.SetUserCustomStatus s.1 text emoji expiration).1,
      ((api.SetUserCustomStatus s.1 text emoji expiration).2,
        s.2 ++ [.SetUserCustomStatus text emoji expiration]))
  GetDNDInfo := fun s user =>
    ((api.GetDNDInfo s.1 user).1, ((api.GetDNDInfo s.1 user).2, s.2 ++ [.GetDNDInfo user]))
  EndSnooze := fun s => ((api.EndSnooze s.1).1, ((api.EndSnooze s.1).2, s.2 ++ [.EndSnooze]))
  SetSnooze := fun s minutes =>
    ((api.SetSnooze s.1 minutes).1, ((api.SetSnooze s.1 minutes).2, s.2 ++ [.SetSnooze minutes]))

/-- The blob storage client: listing a container under a prefix and reading a blob.  Both only
read the store, so they are functions of their arguments. -/
structure StorageClient where
  listContainer : Str → Str → List Str × Option Str
  getBlob : Str → Str → Str × Option Str

/-- What `getTrigger` and `ListTriggers` use from outside `slack.go`: the answer of
`NewStorageClient`, and the library functions `path.Join` and `json.Unmarshal` (into an
`ActionTemplate`). -/
structure Storage where
  NewStorageClient : StorageClient × Option Str
  pathJoin : Str → Str → Str
  jsonUnmarshal : Str → ActionTemplate × Option Str

/-- Model of `strings.Contains`. -/
def stringsContains (s sub : Str) : Bool := decide (sub <:+: s)

/-- Model of `strings.TrimPrefix`. -/
def TrimPrefix (s pre : Str) : Str := if pre.isPrefixOf s then s.drop pre.length else s

/-- Model of `strings.Join`. -/
def stringsJoin (elems : List Str) (sep : Str) : Str := sep.intercalate elems

/-- The struct `slack.Msg`, reduced to the two fields `slack.go` sets. -/
structure Msg where
  ResponseType : Str
  Text : Str
  deriving DecidableEq, Repr

/-- The zero value `slack.Msg{}`. -/
def Msg.zero : Msg := { ResponseType := [], Text := [] }

/-- The constant `slack.ResponseTypeEphemeral`. -/
def ResponseTypeEphemeral : Str := "ephemeral".toList

/-- The function `getTrigger`. -/
def getTrigger (env : Storage) (userId name : Str) : ActionTemplate × Option Err :=
  match env.NewStorageClient.2 with
  | some e => (ActionTemplate.zero, some (.other e))
  | none =>
    let key := env.pathJoin userId name
    let b := env.NewStorageClient.1.getBlob "triggers".toList key
    match b.2 with
    | some e =>
      if stringsContains e "BlobNotFound".toList then
        (ActionTemplate.zero, some (.notRegistered name))
      else (ActionTemplate.zero, some (.other e))
    | none =>
      let action := env.jsonUnmarshal b.1
      match action.2 with
      | some e =>
        (ActionTemplate.zero,
          some (.wrap (.other e)
            ("error unmarshaling trigger ".toList ++ name ++ ": ".toList ++ b.1)))
      | none => (action.1, none)

/-- The loop of `ListTriggers` over the blob names: fetch and render each trigger in turn,
stopping at the first fetch that fails. -/
def renderTriggers (env : Storage) (userId userDir : Str) : List Str → List Str × Option Err
  | [] => ([], none)
  | blobName :: rest =>
    let trigger := getTrigger env userId (TrimPrefix blobName userDir)
    match trigger.2 with
    | some e => ([], some e)
    | none =>
      match renderTriggers env userId userDir rest with
      | (_, some e) => ([], some e)
      | (triggers, none) => (trigger.1.ToString :: triggers, none)

/-- The struct `ListTriggersRequest`. -/
structure ListTriggersRequest extends SlackPayload where
  Global : Bool
  deriving DecidableEq, Repr

/-- The function `ListTriggers` (without its log line on standard output). -/
def ListTriggers (env : Storage) (r : ListTriggersRequest) : Msg × Option Err :=
  match env.NewStorageClient.2 with
  | some e => (Msg.zero, some (.other e))
  | none =>
    let userDir := r.UserId ++ "/".toList
    let blobNames := env.NewStorageClient.1.listContainer "triggers".toList userDir
    match blobNames.2 with
    | some e => (Msg.zero, some (.other e))
    | none =>
      match renderTriggers env r.UserId userDir blobNames.1 with
      | (_, some e) => (Msg.zero, some e)
      | (triggers, none) =>
        ({ ResponseType := ResponseTypeEphemeral, Text := stringsJoin triggers "\n".toList }, none)

/-! ## Sample collaborators -/

/-- A Slack service whose state is the snooze flag: every call succeeds, `GetDNDInfo` reports
the flag, `EndSnooze` clears it and `SetSnooze` sets it. -/
def sampleApi : SlackApi Bool where
  SetUserPresence := fun s _ => (none, s)
  SetUserCustomStatus := fun s _ _ _ => (none, s)
  GetDNDInfo := fun s _ => ((s, none), s)
  EndSnooze := fun _ => (none, false)
  SetSnooze := fun _ _ => (none, true)

/-- A payload for user `U1`. -/
def samplePayload : SlackPayload :=
  { UserId := "U1".toList, UserName := "carolyn".toList, TeamId := "T1".toList,
    TeamName := "team".toList }

/-- An action with the given DND flag. -/
def sampleAction (dnd : Bool) : Action :=
  { Presence := PresenceAway, StatusText := "brb".toList, StatusEmoji := ":x:".toList,
    DnD := dnd, Duration := 30 }

/-- A blob store that lists two triggers for every user and holds the blobs named in
`present`; a blob's content is its own key, decoded as a template of that name. -/
def sampleStorage (present : List Str) : Storage where
  NewStorageClient :=
    ({ listContainer := fun _ _ => (["U1/focus".toList, "U1/lunch".toList], none),
       getBlob := fun _ key =>
        if key ∈ present then (key, none) else ([], some "BlobNotFound".toList) }, none)
  pathJoin := fun a b => a ++ "/".toList ++ b
  jsonUnmarshal := fun b =>
    ({ Name := b, TeamId := [], Presence := PresenceAway, StatusText := [],
       StatusEmoji := "x".toList, DnD := false, Duration := 0 }, none)

/-- A request by user `U1`. -/
def sampleRequest : ListTriggersRequest :=
  { UserId := "U1".toList, UserName := "carolyn".toList, TeamId := "T1".toList,
    TeamName := "team".toList, Global := false }

/-! ## Theorems -/

/-! ### The matcher: greedy repetition, soundness and completeness -/

theorem consumed_append (a b : Str) : consumed (a ++ b) b = a := by
  simp [consumed]

theorem consumed_self (a : Str) : consumed a a = [] := by
  simp [consumed]

theorem consumed_nil (a : Str) : consumed a [] = a := by
  simp [consumed]

/-- Greedy repetition fails exactly when the continuation fails after every admissible prefix. -/
theorem starGo_eq_none {R : Type} (p : Char → Bool) (k : Str → Option R) (s : Str) :
    starGo p k s = none ↔ ∀ a b, s = a ++ b → (∀ x ∈ a, p x = true) → k b = none := by
  induction s with
  | nil =>
    simp only [starGo]
    constructor
    · intro h a b hab _
      have h1 : a = [] ∧ b = [] := by simpa using hab.symm
      rw [h1.2]; exact h
    · intro h; exact h [] [] rfl (by simp)
  | cons x t ih =>
    simp only [starGo]
    by_cases hx : p x = true
    · simp only [hx, if_true]
      constructor
      · intro h a b hab ha
        cases hgo : starGo p k t with
        | some r => rw [hgo] at h; simp at h
        | none =>
          rw [hgo] at h
          cases a with
          | nil => simp at hab; rw [← hab]; exact h
          | cons y a' =>
            simp at hab
            exact (ih.mp hgo) a' b hab.2 (fun z hz => ha z (List.mem_cons_of_mem _ hz))
      · intro h
        have hgo : starGo p k t = none := by
          rw [ih]; intro a b hab ha
          apply h (x :: a) b (by simp [hab])
          intro z hz
          rcases List.mem_cons.mp hz with rfl | hz
          · exact hx
          · exact ha z hz
        rw [hgo]; exact h [] (x :: t) rfl (by simp)
    · simp only [hx]
      constructor
      · intro h a b hab ha
        cases a with
        | nil => simp at hab; rw [← hab]; simpa using h
        | cons y a' =>
          simp at hab
          exact absurd (ha y (List.mem_cons_self _ _)) (by rw [← hab.1]; exact hx)
      · intro h; simpa using h [] (x :: t) rfl (by simp)

/-- With no admissible longer prefix on which the continuation succeeds, greedy repetition
applied at `b` is the continuation at `b`. -/
theorem starGo_stop {R : Type} (p : Char → Bool) (k : Str → Option R) (b : Str)
    (hpr : ∀ x y, b = x ++ y → x ≠ [] → (∀ z ∈ x, p z = true) → k y = none) :
    starGo p k b = k b := by
  cases b with
  | nil => rfl
  | cons c t =>
    simp only [starGo]
    by_cases hc : p c = true
    · have hgo : starGo p k t = none := by
        rw [starGo_eq_none]
        intro a b hab ha
        apply hpr (c :: a) b (by simp [hab]) (by simp)
        intro z hz
        rcases List.mem_cons.mp hz with rfl | hz
        · exact hc
        · exact ha z hz
      simp [hc, hgo]
    · simp [hc]

/-- Forward rule for greedy repetition: the continuation's first success, scanning from the
longest admissible prefix down, is the result. -/
theorem starGo_forward {R : Type} (p : Char → Bool) (k : Str → Option R) (a b : Str) (r : R)
    (ha : ∀ x ∈ a, p x = true) (hk : k b = some r)
    (hpr : ∀ x y, b = x ++ y → x ≠ [] → (∀ z ∈ x, p z = true) → k y = none) :
    starGo p k (a ++ b) = some r := by
  induction a with
  | nil => simpa [starGo_stop p k b hpr] using hk
  | cons c a ih =>
    have hc : p c = true := ha c (List.mem_cons_self _ _)
    have := ih (fun x hx => ha x (List.mem_cons_of_mem _ hx))
    simp [starGo, hc, this]

/-- Inversion rule for greedy repetition. -/
theorem starGo_inv {R : Type} (p : Char → Bool) (k : Str → Option R) (s : Str) (r : R)
    (h : starGo p k s = some r) :
    ∃ a b, s = a ++ b ∧ (∀ x ∈ a, p x = true) ∧ k b = some r ∧
      ∀ x y, b = x ++ y → x ≠ [] → (∀ z ∈ x, p z = true) → k y = none := by
  induction s with
  | nil =>
    simp only [starGo] at h
    refine ⟨[], [], rfl, by simp, h, ?_⟩
    intro x y hxy hx
    have : x = [] := by
      have := hxy.symm; simp at this; exact this.1
    exact absurd this hx
  | cons c t ih =>
    simp only [starGo] at h
    by_cases hc : p c = true
    · simp only [hc, if_true] at h
      cases hgo : starGo p k t with
      | some r' =>
        rw [hgo] at h
        simp only [Option.some.injEq] at h
        subst h
        obtain ⟨a, b, hab, ha, hk, hpr⟩ := ih hgo
        refine ⟨c :: a, b, by simp [hab], ?_, hk, hpr⟩
        intro z hz
        rcases List.mem_cons.mp hz with rfl | hz
        · exact hc
        · exact ha z hz
      | none =>
        rw [hgo] at h
        refine ⟨[], c :: t, rfl, by simp, h, ?_⟩
        intro x y hxy hx hpx
        cases x with
        | nil => exact absurd rfl hx
        | cons z x' =>
          simp at hxy
          exact (starGo_eq_none p k t).mp hgo x' y hxy.2
            (fun w hw => hpx w (List.mem_cons_of_mem _ hw))
    · have hc' : p c = false := by simpa using hc
      simp only [hc'] at h
      refine ⟨[], c :: t, rfl, by simp, by simpa using h, ?_⟩
      intro x y hxy hx hpx
      cases x with
      | nil => exact absurd rfl hx
      | cons z x' =>
        simp at hxy
        have := hpx z (List.mem_cons_self _ _)
        rw [← hxy.1] at this
        exact absurd this hc

/-- Soundness of the matcher: a successful run consumes a word of the expression's language and
the continuation succeeds on what is left. -/
theorem run_sound {R : Type} (n : Nat) (re : Regex) :
    ∀ (s : Str) (c : Caps) (k : Str → Caps → Option R) (r : R),
      re.run n s c k = some r → ∃ t c1, re.Lang n s t ∧ k t c1 = some r := by
  induction re with
  | eps => intro s c k r h; exact ⟨s, c, rfl, h⟩
  | bot =>
    intro s c k r h
    simp only [Regex.run] at h
    by_cases hn : s.length = n
    · simp only [hn, if_true] at h; exact ⟨s, c, ⟨hn, rfl⟩, h⟩
    · simp [hn] at h
  | eot =>
    intro s c k r h
    simp only [Regex.run] at h
    by_cases hn : s = []
    · simp only [hn, if_true] at h; exact ⟨s, c, ⟨hn, rfl⟩, by rw [hn]; exact h⟩
    · simp [hn] at h
  | cls p =>
    intro s c k r h
    cases s with
    | nil => simp [Regex.run] at h
    | cons x t =>
      simp only [Regex.run] at h
      by_cases hx : p x = true
      · simp only [hx, if_true] at h; exact ⟨t, c, ⟨x, hx, rfl⟩, h⟩
      · simp [hx] at h
  | cat a b iha ihb =>
    intro s c k r h
    simp only [Regex.run] at h
    obtain ⟨m, c1, hm, h1⟩ := iha s c _ r h
    obtain ⟨t, c2, ht, h2⟩ := ihb m c1 k r h1
    exact ⟨t, c2, ⟨m, hm, ht⟩, h2⟩
  | opt a iha =>
    intro s c k r h
    simp only [Regex.run] at h
    cases hgo : Regex.run n a s c k with
    | some r' =>
      rw [hgo] at h
      simp only [Option.some.injEq] at h
      subst h
      obtain ⟨t, c1, ht, h1⟩ := iha s c k _ hgo
      exact ⟨t, c1, Or.inl ht, h1⟩
    | none =>
      rw [hgo] at h
      exact ⟨s, c, Or.inr rfl, h⟩
  | star p =>
    intro s c k r h
    simp only [Regex.run] at h
    obtain ⟨a, b, hab, ha, hk, -⟩ := starGo_inv p _ s r h
    exact ⟨b, c, ⟨a, hab, ha⟩, hk⟩
  | plus p =>
    intro s c k r h
    cases s with
    | nil => simp [Regex.run] at h
    | cons x t =>
      simp only [Regex.run] at h
      by_cases hx : p x = true
      · simp only [hx, if_true] at h
        obtain ⟨a, b, hab, ha, hk, -⟩ := starGo_inv p _ t r h
        refine ⟨b, c, ⟨x :: a, by simp, by simp [hab], ?_⟩, hk⟩
        intro z hz
        rcases List.mem_cons.mp hz with rfl | hz
        · exact hx
        · exact ha z hz
      · simp [hx] at h
  | cap i a iha =>
    intro s c k r h
    simp only [Regex.run] at h
    obtain ⟨t, c1, ht, h1⟩ := iha s c _ r h
    exact ⟨t, _, ht, h1⟩

/-- Completeness of the matcher: when the expression's language offers a way to a point where
the continuation succeeds whatever the captures, the run succeeds. -/
theorem run_complete {R : Type} (n : Nat) (re : Regex) :
    ∀ (s t : Str) (k : Str → Caps → Option R), re.Lang n s t →
      (∀ c1, (k t c1).isSome = true) → ∀ c, (re.run n s c k).isSome = true := by
  induction re with
  | eps => intro s t k h hk c; simp only [Regex.Lang] at h; subst h; exact hk c
  | bot =>
    intro s t k h hk c
    obtain ⟨hn, rfl⟩ := h
    simp [Regex.run, hn, hk c]
  | eot =>
    intro s t k h hk c
    obtain ⟨hn, rfl⟩ := h
    simp [Regex.run, hn]; rw [← hn]; exact hk c
  | cls p =>
    intro s t k h hk c
    obtain ⟨x, hx, rfl⟩ := h
    simp [Regex.run, hx, hk c]
  | cat a b iha ihb =>
    intro s t k h hk c
    obtain ⟨m, hm, ht⟩ := h
    simp only [Regex.run]
    exact iha s m _ hm (fun c1 => ihb m t k ht hk c1) c
  | opt a iha =>
    intro s t k h hk c
    simp only [Regex.run]
    rcases h with h | h
    · have := iha s t k h hk c
      cases hgo : Regex.run n a s c k with
      | some r' => simp
      | none => rw [hgo] at this; simp at this
    · cases hgo : Regex.run n a s c k with
      | some r' => simp
      | none => rw [← h]; simpa using hk c
  | star p =>
    intro s t k h hk c
    obtain ⟨a, hab, ha⟩ := h
    simp only [Regex.run]
    cases hgo : starGo p (fun s1 => k s1 c) s with
    | some r' => simp
    | none =>
      have := (starGo_eq_none p _ s).mp hgo a t hab ha
      have h2 := hk c
      simp only at this
      rw [this] at h2; simp at h2
  | plus p =>
    intro s t k h hk c
    obtain ⟨a, hne, hab, ha⟩ := h
    cases a with
    | nil => exact absurd rfl hne
    | cons x a' =>
      subst hab
      have hx := ha x (List.mem_cons_self _ _)
      simp only [Regex.run, List.cons_append, hx, if_true]
      cases hgo : starGo p (fun s1 => k s1 c) (a' ++ t) with
      | some r' => simp
      | none =>
        have := (starGo_eq_none p _ _).mp hgo a' t rfl
          (fun z hz => ha z (List.mem_cons_of_mem _ hz))
        have h2 := hk c
        simp only at this
        rw [this] at h2; simp at h2
  | cap i a iha =>
    intro s t k h hk c
    simp only [Regex.run]
    exact iha s t (fun s1 c1 => k s1 (c1.set i (consumed s s1))) h (fun c1 => hk _) c

/-! ### Forward and inversion rules for single constructs -/

theorem run_plus_forward {R : Type} (n : Nat) (p : Char → Bool) (k : Str → Caps → Option R)
    (a b : Str) (c : Caps) (r : R) (hne : a ≠ []) (ha : ∀ x ∈ a, p x = true)
    (hk : k b c = some r)
    (hpr : ∀ x y, b = x ++ y → x ≠ [] → (∀ z ∈ x, p z = true) → k y c = none) :
    (Regex.plus p).run n (a ++ b) c k = some r := by
  cases a with
  | nil => exact absurd rfl hne
  | cons x a' =>
    have hx := ha x (List.mem_cons_self _ _)
    simp only [Regex.run, List.cons_append, hx, if_true]
    exact starGo_forward p _ a' b r (fun z hz => ha z (List.mem_cons_of_mem _ hz)) hk hpr

theorem run_plus_inv {R : Type} (n : Nat) (p : Char → Bool) (k : Str → Caps → Option R)
    (s : Str) (c : Caps) (r : R) (h : (Regex.plus p).run n s c k = some r) :
    ∃ a b, a ≠ [] ∧ s = a ++ b ∧ (∀ x ∈ a, p x = true) ∧ k b c = some r ∧
      ∀ x y, b = x ++ y → x ≠ [] → (∀ z ∈ x, p z = true) → k y c = none := by
  cases s with
  | nil => simp [Regex.run] at h
  | cons x t =>
    simp only [Regex.run] at h
    by_cases hx : p x = true
    · simp only [hx, if_true] at h
      obtain ⟨a, b, hab, ha, hk, hpr⟩ := starGo_inv p _ t r h
      refine ⟨x :: a, b, by simp, by simp [hab], ?_, hk, hpr⟩
      intro z hz
      rcases List.mem_cons.mp hz with rfl | hz
      · exact hx
      · exact ha z hz
    · simp [hx] at h

theorem run_star_forward {R : Type} (n : Nat) (p : Char → Bool) (k : Str → Caps → Option R)
    (a b : Str) (c : Caps) (r : R) (ha : ∀ x ∈ a, p x = true)
    (hk : k b c = some r)
    (hpr : ∀ x y, b = x ++ y → x ≠ [] → (∀ z ∈ x, p z = true) → k y c = none) :
    (Regex.star p).run n (a ++ b) c k = some r := by
  simp only [Regex.run]
  exact starGo_forward p _ a b r ha hk hpr

theorem run_star_inv {R : Type} (n : Nat) (p : Char → Bool) (k : Str → Caps → Option R)
    (s : Str) (c : Caps) (r : R) (h : (Regex.star p).run n s c k = some r) :
    ∃ a b, s = a ++ b ∧ (∀ x ∈ a, p x = true) ∧ k b c = some r := by
  simp only [Regex.run] at h
  obtain ⟨a, b, hab, ha, hk, -⟩ := starGo_inv p _ s r h
  exact ⟨a, b, hab, ha, hk⟩

theorem run_opt_inv {R : Type} (n : Nat) (a : Regex) (k : Str → Caps → Option R)
    (s : Str) (c : Caps) (r : R) (h : (Regex.opt a).run n s c k = some r) :
    a.run n s c k = some r ∨ (a.run n s c k = none ∧ k s c = some r) := by
  simp only [Regex.run] at h
  cases hgo : Regex.run n a s c k with
  | some r' => rw [hgo] at h; left; simpa using h
  | none => rw [hgo] at h; right; exact ⟨rfl, h⟩

theorem run_lit_inv {R : Type} (n : Nat) (ch : Char) (k : Str → Caps → Option R)
    (s : Str) (c : Caps) (r : R) (h : (lit ch).run n s c k = some r) :
    ∃ t, s = ch :: t ∧ k t c = some r := by
  cases s with
  | nil => simp [lit, Regex.run] at h
  | cons x t =>
    simp only [lit, Regex.run] at h
    by_cases hx : x = ch
    · subst hx; simp at h; exact ⟨t, rfl, h⟩
    · simp [hx] at h

theorem run_none_of_not_lang {R : Type} (n : Nat) (re : Regex) (s : Str) (c : Caps)
    (k : Str → Caps → Option R) (h : ∀ t, re.Lang n s t → ∀ c1, k t c1 = none) :
    re.run n s c k = none := by
  cases hgo : re.run n s c k with
  | none => rfl
  | some r =>
    obtain ⟨t, c1, ht, hk⟩ := run_sound n re s c k r hgo
    rw [h t ht c1] at hk; simp at hk

/-! ### The tail of the template pattern -/

/-- The language of the tail of the template pattern, spelled out. -/
theorem parenTail_lang (n : Nat) (y t : Str) :
    (Regex.cat parenTail .eps).Lang n y t ↔ t = [] ∧ ParenTailShape y := by
  simp only [parenTail, emojiTail, afterEmoji, dndOpt, forOpt, cats, str, lit, Regex.Lang,
    ParenTailShape, ForClause,
    String.toList, List.map, beq_iff_eq, exists_eq_left]
  constructor
  · rintro ⟨m, ⟨m1, ⟨sp, hsp, rfl, hsp'⟩, m2, rfl, m3, h3, rfl⟩, rfl⟩
    obtain ⟨m4, ⟨e, rfl, he⟩, m5, rfl, m6, hD, m7, hF, m8, ⟨rfl, rfl⟩, rfl⟩ := h3
    refine ⟨rfl, ?_⟩
    rcases hD with ⟨_, rfl, _, rfl, _, rfl, _, rfl, rfl⟩ | rfl
    · rcases hF with ⟨_, ⟨_, rfl, _, rfl, _, rfl, _, rfl, _, rfl, rfl⟩, _, ⟨d, hd, rfl⟩,
          us, hus, rfl, hus'⟩ | rfl
      · exact ⟨sp, e, [' ', 'D', 'N', 'D'], [' ', 'f', 'o', 'r', ' '] ++ d :: us, by simp, hsp,
          hsp', he, Or.inr rfl, Or.inr ⟨d, us, rfl, hd, hus, hus'⟩⟩
      · exact ⟨sp, e, [' ', 'D', 'N', 'D'], [], by simp, hsp, hsp', he, Or.inr rfl, Or.inl rfl⟩
    · rcases hF with ⟨_, ⟨_, rfl, _, rfl, _, rfl, _, rfl, _, rfl, rfl⟩, _, ⟨d, hd, rfl⟩,
          us, hus, rfl, hus'⟩ | rfl
      · exact ⟨sp, e, [], [' ', 'f', 'o', 'r', ' '] ++ d :: us, by simp, hsp,
          hsp', he, Or.inl rfl, Or.inr ⟨d, us, rfl, hd, hus, hus'⟩⟩
      · exact ⟨sp, e, [], [], by simp, hsp, hsp', he, Or.inl rfl, Or.inl rfl⟩
  · rintro ⟨rfl, sp, e, D, F, rfl, hsp, hsp', he, hD, hF⟩
    refine ⟨[], ⟨_, ⟨sp, hsp, rfl, hsp'⟩, _, rfl, [], ?_, rfl⟩, rfl⟩
    refine ⟨_, ⟨e, rfl, he⟩, _, rfl, F, ?_, [], ?_, [], ⟨rfl, rfl⟩, rfl⟩
    · rcases hD with rfl | rfl
      · right; simp
      · left; exact ⟨_, rfl, _, rfl, _, rfl, _, rfl, by simp⟩
    · rcases hF with rfl | ⟨d, us, rfl, hd, hus, hus'⟩
      · right; rfl
      · left
        exact ⟨_, ⟨_, rfl, _, rfl, _, rfl, _, rfl, _, rfl, rfl⟩, _, ⟨d, hd, rfl⟩, us, hus,
          by simp, hus'⟩

theorem isDot_of_isSpace (x : Char) (h : isSpace x = true) : isDot x = true := by
  have : x = ' ' := by simpa [isSpace] using h
  subst this; decide

theorem not_paren_of_isUnitChar (x : Char) (h : isUnitChar x = true) : x ≠ ')' ∧ x ≠ '(' := by
  constructor <;> (intro hx; subst hx; revert h; decide)

theorem not_paren_of_isDigit (x : Char) (h : isDigit x = true) : x ≠ ')' ∧ x ≠ '(' := by
  constructor <;> (intro hx; subst hx; revert h; decide)

/-- Neither parenthesis occurs in the ` DND` and ` for ...` suffixes. -/
theorem suffix_no_paren (D F : Str) (hD : D = [] ∨ D = " DND".toList) (hF : ForClause F) :
    ')' ∉ D ++ F ∧ '(' ∉ D ++ F := by
  have hD' : ')' ∉ D ∧ '(' ∉ D := by
    rcases hD with rfl | rfl <;> constructor <;> decide
  have hF' : ')' ∉ F ∧ '(' ∉ F := by
    rcases hF with rfl | ⟨d, us, rfl, hd, -, hus⟩
    · constructor <;> decide
    · constructor
      · simp only [String.toList, List.mem_append, List.mem_cons, not_or]
        refine ⟨by decide, fun h => (not_paren_of_isDigit d hd).1 h.symm, ?_⟩
        intro h; exact (not_paren_of_isUnitChar _ (hus _ h)).1 rfl
      · simp only [String.toList, List.mem_append, List.mem_cons, not_or]
        refine ⟨by decide, fun h => (not_paren_of_isDigit d hd).2 h.symm, ?_⟩
        intro h; exact (not_paren_of_isUnitChar _ (hus _ h)).2 rfl
  simp only [List.mem_append, not_or]
  exact ⟨⟨hD'.1, hF'.1⟩, ⟨hD'.2, hF'.2⟩⟩

theorem starGo_all {R : Type} (p : Char → Bool) (k : Str → Option R) (a : Str) (r : R)
    (ha : ∀ x ∈ a, p x = true) (hk : k [] = some r) : starGo p k a = some r := by
  have := starGo_forward p k a [] r ha hk (by
    intro x y hxy hx
    have : x = [] := by
      have := hxy.symm; simp at this; exact this.1
    exact absurd this hx)
  simpa using this

theorem consumed_cons4 (a b c d : Char) (t : Str) :
    consumed (a :: b :: c :: d :: t) t = [a, b, c, d] :=
  consumed_append [a, b, c, d] t

theorem forOpt_forward {R : Type} (n : Nat) (F : Str) (c0 c1 c2 c3 c4 : Str)
    (k : Str → Caps → Option R) (r : R) (hF : ForClause F)
    (hk : k [] [c0, c1, c2, c3, c4, F.drop 5] = some r) :
    (Regex.cat forOpt (.cat .eot .eps)).run n F [c0, c1, c2, c3, c4, []] k = some r := by
  rcases hF with rfl | ⟨d, us, rfl, hd, hus, hus'⟩
  · simpa [forOpt, str, cats, lit, Regex.run] using hk
  · cases us with
    | nil => exact absurd rfl hus
    | cons u us =>
      have hu := hus' u (List.mem_cons_self _ _)
      simp only [String.toList, List.cons_append, List.nil_append, List.drop_succ_cons,
        List.drop_zero] at hk
      have hgo : starGo isUnitChar (fun s1 => if s1 = [] then
            k s1 [c0, c1, c2, c3, c4, consumed (d :: u :: us) s1] else none) us
          = some r := by
        apply starGo_all _ _ _ _ (fun z hz => hus' z (List.mem_cons_of_mem _ hz))
        simpa [consumed_nil] using hk
      simp [forOpt, str, cats, lit, Regex.run, hd, hu, hgo]

theorem afterEmoji_forward {R : Type} (n : Nat) (D F : Str) (c0 c1 c2 c3 : Str)
    (k : Str → Caps → Option R) (r : R) (hD : D = [] ∨ D = " DND".toList) (hF : ForClause F)
    (hk : k [] [c0, c1, c2, c3, D, F.drop 5] = some r) :
    afterEmoji.run n (')' :: (D ++ F)) [c0, c1, c2, c3, [], []] k = some r := by
  rcases hD with rfl | rfl
  · have h1 := forOpt_forward n F c0 c1 c2 c3 [] k r hF hk
    have h2 : (Regex.cap 4 (str " DND")).run n F [c0, c1, c2, c3, [], []]
        (fun s1 c1 => (Regex.cat forOpt (.cat .eot .eps)).run n s1 c1 k) = none := by
      rcases hF with rfl | ⟨d, us, rfl, hd, hus, hus'⟩
      · simp [str, cats, lit, Regex.run]
      · simp [str, cats, lit, Regex.run]
    show (Regex.cat (lit ')') (Regex.cat (Regex.opt (.cap 4 (str " DND")))
      (Regex.cat forOpt (.cat .eot .eps)))).run n _ _ k = some r
    simp only [Regex.run, lit, beq_self_eq_true, if_true, List.nil_append] at h1 h2 ⊢
    rw [h2]; exact h1
  · have h1 := forOpt_forward n F c0 c1 c2 c3 " DND".toList k r hF hk
    show (Regex.cat (lit ')') (Regex.cat (Regex.opt (.cap 4 (str " DND")))
      (Regex.cat forOpt (.cat .eot .eps)))).run n _ _ k = some r
    simp only [Regex.run, lit, str, cats, String.toList, List.map, beq_self_eq_true, if_true,
      List.cons_append, List.nil_append, consumed_cons4, List.set] at h1 ⊢
    rw [h1]

theorem run_eps {R : Type} (n : Nat) (s : Str) (c : Caps) (k : Str → Caps → Option R) :
    Regex.eps.run n s c k = k s c := rfl

theorem run_cat {R : Type} (n : Nat) (a b : Regex) (s : Str) (c : Caps)
    (k : Str → Caps → Option R) :
    (Regex.cat a b).run n s c k = a.run n s c (fun s1 c1 => b.run n s1 c1 k) := rfl

theorem run_cap {R : Type} (n i : Nat) (a : Regex) (s : Str) (c : Caps)
    (k : Str → Caps → Option R) :
    (Regex.cap i a).run n s c k = a.run n s c (fun s1 c1 => k s1 (c1.set i (consumed s s1))) :=
  rfl

theorem run_opt {R : Type} (n : Nat) (a : Regex) (s : Str) (c : Caps)
    (k : Str → Caps → Option R) :
    (Regex.opt a).run n s c k =
      match a.run n s c k with
      | some r => some r
      | none => k s c := rfl

theorem run_opt_some {R : Type} (n : Nat) (a : Regex) (s : Str) (c : Caps)
    (k : Str → Caps → Option R) (r : R) (h : a.run n s c k = some r) :
    (Regex.opt a).run n s c k = some r := by
  rw [run_opt, h]

theorem run_opt_none {R : Type} (n : Nat) (a : Regex) (s : Str) (c : Caps)
    (k : Str → Caps → Option R) (h : a.run n s c k = none) :
    (Regex.opt a).run n s c k = k s c := by
  rw [run_opt, h]

theorem run_lit_cons {R : Type} (n : Nat) (ch x : Char) (t : Str) (c : Caps)
    (k : Str → Caps → Option R) :
    (lit ch).run n (x :: t) c k = if x = ch then k t c else none := by
  simp [lit, Regex.run]

theorem run_bot {R : Type} (n : Nat) (s : Str) (c : Caps) (k : Str → Caps → Option R) :
    Regex.bot.run n s c k = if s.length = n then k s c else none := rfl

theorem afterEmoji_none {R : Type} (n : Nat) (y : Str) (c : Caps) (k : Str → Caps → Option R)
    (h : y.head? ≠ some ')') : afterEmoji.run n y c k = none := by
  cases y with
  | nil => simp [afterEmoji, cats, lit, Regex.run]
  | cons x t =>
    have hx : x ≠ ')' := by simpa using h
    simp [afterEmoji, cats, lit, Regex.run, hx]

theorem emojiTail_forward {R : Type} (n : Nat) (emoji D F : Str) (c0 c1 c2 c3 : Str)
    (k : Str → Caps → Option R) (r : R)
    (he : ∀ x ∈ emoji, isDot x = true) (hD : D = [] ∨ D = " DND".toList) (hF : ForClause F)
    (hk : k [] [c0, c1, c2, emoji, D, F.drop 5] = some r) :
    emojiTail.run n (emoji ++ ')' :: (D ++ F)) [c0, c1, c2, c3, [], []] k = some r := by
  rw [emojiTail, run_cat, run_cap]
  apply run_star_forward n isDot _ emoji _ _ r he
  · simp only [consumed_append, List.set]
    exact afterEmoji_forward n D F c0 c1 c2 emoji k r hD hF hk
  · intro x y hxy hx _
    apply afterEmoji_none
    cases x with
    | nil => exact absurd rfl hx
    | cons z x' =>
      simp only [List.cons_append, List.cons.injEq] at hxy
      intro hy
      have : ')' ∈ D ++ F := by
        rw [hxy.2]
        cases y with
        | nil => simp at hy
        | cons w y' => simp at hy; simp [hy]
      exact (suffix_no_paren D F hD hF).1 this

theorem parenTail_forward {R : Type} (n : Nat) (emoji D F : Str) (c0 c1 c2 c3 : Str)
    (k : Str → Caps → Option R) (r : R)
    (he : ∀ x ∈ emoji, isDot x = true) (hD : D = [] ∨ D = " DND".toList) (hF : ForClause F)
    (hk : k [] [c0, c1, c2, emoji, D, F.drop 5] = some r) :
    (Regex.cat parenTail .eps).run n (' ' :: '(' :: (emoji ++ ')' :: (D ++ F)))
      [c0, c1, c2, c3, [], []] k = some r := by
  have h := emojiTail_forward n emoji D F c0 c1 c2 c3 k r he hD hF hk
  rw [parenTail]
  simp only [cats, run_cat, run_eps, run_lit_cons, if_true]
  have hgo : starGo isSpace (fun s1 => (lit '(').run n s1 [c0, c1, c2, c3, [], []]
      (fun s2 c4 => emojiTail.run n s2 c4 k)) ('(' :: (emoji ++ ')' :: (D ++ F))) = some r := by
    simp only [starGo, isSpace, run_lit_cons]
    simpa using h
  simpa [Regex.run, isSpace] using hgo

theorem parenTail_none {R : Type} (n : Nat) (y : Str) (c : Caps) (k : Str → Caps → Option R)
    (h : ¬ ParenTailShape y) : (Regex.cat parenTail .eps).run n y c k = none := by
  apply run_none_of_not_lang
  intro t ht
  exact absurd ((parenTail_lang n y t).mp ht).2 h

theorem parenTail_isSome {R : Type} (n : Nat) (y : Str) (c : Caps) (k : Str → Caps → Option R)
    (h : ParenTailShape y) (hk : ∀ c1, (k [] c1).isSome = true) :
    ((Regex.cat parenTail .eps).run n y c k).isSome = true :=
  run_complete n _ y [] k ((parenTail_lang n y []).mpr ⟨rfl, h⟩) hk c

theorem shape_head (y : Str) (h : ParenTailShape y) : y.head? = some ' ' := by
  obtain ⟨sp, e, D, F, rfl, hsp, hsp', -⟩ := h
  cases sp with
  | nil => exact absurd rfl hsp
  | cons x sp =>
    have := hsp' x (List.mem_cons_self _ _)
    simp [isSpace] at this
    simp [this]

theorem shape_mem_paren (y : Str) (h : ParenTailShape y) : '(' ∈ y := by
  obtain ⟨sp, e, D, F, rfl, -⟩ := h
  simp

/-! ### The status text and the head of the template pattern -/

theorem statusCap_forward {R : Type} (n : Nat) (text emoji D F : Str) (c0 c1 c2 : Str)
    (k : Str → Caps → Option R) (r : R) (hne : text ≠ [])
    (ht : ∀ x ∈ text, isDot x = true)
    (he : ∀ x ∈ emoji, isDot x = true) (hD : D = [] ∨ D = " DND".toList) (hF : ForClause F)
    (hP : ∀ x y, emoji ++ ')' :: (D ++ F) = x ++ y → ¬ ParenTailShape y)
    (hk : k [] [c0, c1, text, emoji, D, F.drop 5] = some r) :
    (Regex.cap 2 (.plus isDot)).run n (text ++ ' ' :: '(' :: (emoji ++ ')' :: (D ++ F)))
      [c0, c1, c2, [], [], []] (fun s1 c1 => (Regex.cat parenTail .eps).run n s1 c1 k)
      = some r := by
  rw [run_cap]
  apply run_plus_forward n isDot _ text _ _ r hne ht
  · simp only [consumed_append, List.set]
    exact parenTail_forward n emoji D F c0 c1 text [] k r he hD hF hk
  · intro x y hxy hx _
    apply parenTail_none
    intro hs
    cases x with
    | nil => exact absurd rfl hx
    | cons z x' =>
      simp only [List.cons_append, List.cons.injEq] at hxy
      cases x' with
      | nil =>
        simp only [List.nil_append] at hxy
        have := shape_head y hs
        rw [← hxy.2] at this
        simp at this
      | cons w x'' =>
        simp only [List.cons_append, List.cons.injEq] at hxy
        exact hP x'' y hxy.2.2 hs

theorem statusCap_none {R : Type} (n : Nat) (s : Str) (c : Caps) (k : Str → Caps → Option R)
    (h : ∀ x y, s = x ++ y → x ≠ [] → ¬ ParenTailShape y) :
    (Regex.cap 2 (.plus isDot)).run n s c
      (fun s1 c1 => (Regex.cat parenTail .eps).run n s1 c1 k) = none := by
  apply run_none_of_not_lang
  intro t ht c1
  obtain ⟨a, hne, hat, -⟩ := ht
  exact parenTail_none n t c1 k (h a t hat hne)

theorem statusGroup_text_forward {R : Type} (n : Nat) (text emoji D F : Str) (c0 c1 c2 : Str)
    (k : Str → Caps → Option R) (r : R) (hne : text ≠ [])
    (ht : ∀ x ∈ text, isDot x = true)
    (he : ∀ x ∈ emoji, isDot x = true) (hD : D = [] ∨ D = " DND".toList) (hF : ForClause F)
    (hP : ∀ x y, emoji ++ ')' :: (D ++ F) = x ++ y → ¬ ParenTailShape y)
    (hk : k [] [c0, c1, text, emoji, D, F.drop 5] = some r) :
    (Regex.cat statusGroup (.cat parenTail .eps)).run n
      (' ' :: (text ++ ' ' :: '(' :: (emoji ++ ')' :: (D ++ F)))) [c0, c1, c2, [], [], []] k
      = some r := by
  rw [run_cat, statusGroup]
  apply run_opt_some
  rw [statusText, run_cat]
  apply run_opt_some
  rw [run_lit_cons]
  simp only [if_true]
  exact statusCap_forward n text emoji D F c0 c1 c2 k r hne ht he hD hF hP hk

theorem not_shape_paren (E : Str) (hP : ∀ x y, E = x ++ y → ¬ ParenTailShape y) :
    ∀ x y, ' ' :: '(' :: E = x ++ y → x ≠ [] → ¬ ParenTailShape y := by
  intro x y hxy hx hs
  cases x with
  | nil => exact absurd rfl hx
  | cons z x' =>
    simp only [List.cons_append, List.cons.injEq] at hxy
    cases x' with
    | nil =>
      simp only [List.nil_append] at hxy
      have := shape_head y hs
      rw [← hxy.2] at this
      simp at this
    | cons w x'' =>
      simp only [List.cons_append, List.cons.injEq] at hxy
      exact hP x'' y hxy.2.2 hs

theorem statusGroup_blank_forward {R : Type} (n : Nat) (emoji D F : Str) (c0 c1 c2 : Str)
    (k : Str → Caps → Option R) (r : R)
    (he : ∀ x ∈ emoji, isDot x = true) (hD : D = [] ∨ D = " DND".toList) (hF : ForClause F)
    (hP : ∀ x y, emoji ++ ')' :: (D ++ F) = x ++ y → ¬ ParenTailShape y)
    (hk : k [] [c0, c1, [' '], emoji, D, F.drop 5] = some r) :
    (Regex.cat statusGroup (.cat parenTail .eps)).run n
      (' ' :: ' ' :: '(' :: (emoji ++ ')' :: (D ++ F))) [c0, c1, c2, [], [], []] k
      = some r := by
  rw [run_cat, statusGroup]
  apply run_opt_some
  rw [statusText, run_cat, run_opt_none]
  · exact statusCap_forward n [' '] emoji D F c0 c1 c2 k r (by simp) (by decide) he hD hF hP hk
  · rw [run_lit_cons]
    simp only [if_true]
    exact statusCap_none n _ _ k (not_shape_paren _ hP)

theorem statusGroup_skip_forward {R : Type} (n : Nat) (emoji D F : Str) (c0 c1 c2 : Str)
    (k : Str → Caps → Option R) (r : R)
    (he : ∀ x ∈ emoji, isDot x = true) (hD : D = [] ∨ D = " DND".toList) (hF : ForClause F)
    (hP : ∀ x y, emoji ++ ')' :: (D ++ F) = x ++ y → ¬ ParenTailShape y)
    (hk : k [] [c0, c1, c2, emoji, D, F.drop 5] = some r) :
    (Regex.cat statusGroup (.cat parenTail .eps)).run n
      (' ' :: '(' :: (emoji ++ ')' :: (D ++ F))) [c0, c1, c2, [], [], []] k
      = some r := by
  rw [run_cat, statusGroup, run_opt_none]
  · exact parenTail_forward n emoji D F c0 c1 c2 [] k r he hD hF hk
  · rw [statusText, run_cat, run_opt, run_lit_cons]
    simp only [if_true]
    have h1 : (Regex.cap 2 (.plus isDot)).run n ('(' :: (emoji ++ ')' :: (D ++ F)))
        [c0, c1, c2, [], [], []] (fun s1 c1 => (Regex.cat parenTail .eps).run n s1 c1 k)
        = none := by
      apply statusCap_none
      intro x y hxy hx
      cases x with
      | nil => exact absurd rfl hx
      | cons z x' =>
        simp only [List.cons_append, List.cons.injEq] at hxy
        exact hP x' y hxy.2
    rw [h1]
    exact statusCap_none n _ _ k (not_shape_paren _ hP)

theorem isNameChar_ne (x : Char) (h : isNameChar x = true) : x ≠ ' ' ∧ x ≠ '=' := by
  constructor <;> (intro hx; subst hx; revert h; decide)

/-- The head of the template pattern, `^([\w-_]+)[ ]?=`, run on a name followed by an optional
space and an equals sign. -/
theorem template_head_forward (name s1 b3 : Str) (r : List Str)
    (hne : name ≠ []) (hname : ∀ x ∈ name, isNameChar x = true)
    (hs1 : s1 = [] ∨ s1 = [' '])
    (hk : (Regex.cat statusGroup (.cat parenTail .eps)).run (name ++ (s1 ++ '=' :: b3)).length b3
      [[], name, [], [], [], []]
      (fun s2 c => some (c.set 0 (consumed (name ++ (s1 ++ '=' :: b3)) s2))) = some r) :
    matchAt templatePattern 5 (name ++ (s1 ++ '=' :: b3)).length (name ++ (s1 ++ '=' :: b3))
      = some r := by
  rw [matchAt, templatePattern]
  simp only [cats, run_cat, run_bot, if_true, run_cap]
  apply run_plus_forward _ isNameChar _ name _ _ r hne hname
  · simp only [consumed_append, List.replicate, List.set]
    rcases hs1 with rfl | rfl
    · rw [run_opt_none]
      · simp only [List.nil_append, run_lit_cons, if_true]
        exact hk
      · simp [run_lit_cons]
    · apply run_opt_some
      simp only [List.cons_append, List.nil_append, run_lit_cons, if_true]
      exact hk
  · intro x y hxy hx hpx
    cases x with
    | nil => exact absurd rfl hx
    | cons z x' =>
      have hz := isNameChar_ne z (hpx z (List.mem_cons_self _ _))
      rcases hs1 with rfl | rfl
      · simp only [List.nil_append, List.cons_append, List.cons.injEq] at hxy
        exact absurd hxy.1.symm hz.2
      · simp only [List.nil_append, List.cons_append, List.cons.injEq] at hxy
        exact absurd hxy.1.symm hz.1

theorem FindStringSubmatch_of_matchAt (re : Regex) (g : Nat) (s : Str) (r : List Str)
    (h : matchAt re g s.length s = some r) : FindStringSubmatch re g s = r := by
  cases s with
  | nil => simp only [FindStringSubmatch, searchFrom]; rw [h]; rfl
  | cons x t => simp only [FindStringSubmatch, searchFrom]; rw [h]; rfl

theorem isDot_of_not_mem (s : Str) (h : '\n' ∉ s) : ∀ x ∈ s, isDot x = true := by
  intro x hx
  simp only [isDot, bne_iff_ne, ne_eq]
  intro hx'; subst hx'; exact h hx

theorem not_shape_of_no_paren (E : Str) (h : '(' ∉ E) :
    ∀ x y, E = x ++ y → ¬ ParenTailShape y := by
  intro x y hxy hs
  apply h
  rw [hxy]
  exact List.mem_append_right _ (shape_mem_paren y hs)

/-- The shorthand duration of a digit followed by `d` or `w`. -/
theorem parseDuration_digit (k : Nat) (hk : k < 10) (u : Char) (hu : u = 'd' ∨ u = 'w') :
    parseDuration [Char.ofNat (48 + k), u] =
      ((k : Int) * (if u = 'd' then day else week), none) := by
  rcases hu with rfl | rfl <;> interval_cases k <;> decide

theorem isDigit_ofNat (k : Nat) (hk : k < 10) : isDigit (Char.ofNat (48 + k)) = true := by
  interval_cases k <;> decide

theorem isUnitChar_dw (u : Char) (hu : u = 'd' ∨ u = 'w') : isUnitChar u = true := by
  rcases hu with rfl | rfl <;> decide

/-- Match of the template pattern on a definition made of a name, a status text, an emoji
and optional suffixes, with the usual single spaces. -/
theorem match_text_definition (name text emoji D F : Str)
    (hne : name ≠ []) (hname : ∀ x ∈ name, isNameChar x = true)
    (htne : text ≠ []) (ht : ∀ x ∈ text, isDot x = true)
    (he : ∀ x ∈ emoji, isDot x = true) (hD : D = [] ∨ D = " DND".toList) (hF : ForClause F)
    (hP : ∀ x y, emoji ++ ')' :: (D ++ F) = x ++ y → ¬ ParenTailShape y) :
    FindStringSubmatch templatePattern 5
        (name ++ ([' '] ++ '=' :: ' ' :: (text ++ ' ' :: '(' :: (emoji ++ ')' :: (D ++ F))))) =
      [name ++ ([' '] ++ '=' :: ' ' :: (text ++ ' ' :: '(' :: (emoji ++ ')' :: (D ++ F)))),
        name, text, emoji, D, F.drop 5] := by
  apply FindStringSubmatch_of_matchAt
  apply template_head_forward name [' '] _ _ hne hname (Or.inr rfl)
  apply statusGroup_text_forward _ text emoji D F _ _ _ _ _ htne ht he hD hF hP
  simp [consumed_nil]

/-! ### Inversion of a match of the template pattern -/

theorem run_cls_inv {R : Type} (n : Nat) (p : Char → Bool) (k : Str → Caps → Option R)
    (s : Str) (c : Caps) (r : R) (h : (Regex.cls p).run n s c k = some r) :
    ∃ x t, s = x :: t ∧ p x = true ∧ k t c = some r := by
  cases s with
  | nil => simp [Regex.run] at h
  | cons x t =>
    simp only [Regex.run] at h
    by_cases hx : p x = true
    · simp only [hx, if_true] at h; exact ⟨x, t, rfl, hx, h⟩
    · simp [hx] at h

theorem run_eot_inv {R : Type} (n : Nat) (k : Str → Caps → Option R)
    (s : Str) (c : Caps) (r : R) (h : Regex.eot.run n s c k = some r) :
    s = [] ∧ k [] c = some r := by
  simp only [Regex.run] at h
  by_cases hs : s = []
  · subst hs; simp at h; exact ⟨rfl, h⟩
  · simp [hs] at h

theorem forOpt_inv {R : Type} (n : Nat) (y : Str) (c0 c1 c2 c3 c4 : Str)
    (k : Str → Caps → Option R) (r : R)
    (h : (Regex.cat forOpt (.cat .eot .eps)).run n y [c0, c1, c2, c3, c4, []] k = some r) :
    ForClause y ∧ k [] [c0, c1, c2, c3, c4, y.drop 5] = some r := by
  rw [run_cat, forOpt] at h
  rcases run_opt_inv _ _ _ _ _ _ h with h1 | ⟨-, h2⟩
  · simp only [str, String.toList, List.map, cats, run_cat, run_eps] at h1
    obtain ⟨t1, rfl, ha⟩ := run_lit_inv _ _ _ _ _ _ h1
    obtain ⟨t2, rfl, hb⟩ := run_lit_inv _ _ _ _ _ _ ha
    obtain ⟨t3, rfl, hc⟩ := run_lit_inv _ _ _ _ _ _ hb
    obtain ⟨t4, rfl, hd4⟩ := run_lit_inv _ _ _ _ _ _ hc
    obtain ⟨t5, rfl, he⟩ := run_lit_inv _ _ _ _ _ _ hd4
    rw [run_cap, run_cat] at he
    obtain ⟨d, t6, rfl, hd, hf⟩ := run_cls_inv _ _ _ _ _ _ he
    obtain ⟨us, t7, hus, rfl, hus', hg, -⟩ := run_plus_inv _ _ _ _ _ _ hf
    obtain ⟨rfl, hh⟩ := run_eot_inv _ _ _ _ _ hg
    refine ⟨Or.inr ⟨d, us, by simp [String.toList], hd, hus, hus'⟩, ?_⟩
    simpa [consumed_nil] using hh
  · rw [run_cat] at h2
    obtain ⟨rfl, h2⟩ := run_eot_inv _ _ _ _ _ h2
    exact ⟨Or.inl rfl, by simpa [run_eps] using h2⟩

theorem afterEmoji_inv {R : Type} (n : Nat) (y : Str) (c0 c1 c2 c3 : Str)
    (k : Str → Caps → Option R) (r : R)
    (h : afterEmoji.run n y [c0, c1, c2, c3, [], []] k = some r) :
    ∃ D F, y = ')' :: (D ++ F) ∧ (D = [] ∨ D = " DND".toList) ∧ ForClause F ∧
      k [] [c0, c1, c2, c3, D, F.drop 5] = some r := by
  rw [afterEmoji] at h
  simp only [cats, run_cat] at h
  obtain ⟨t0, rfl, h0⟩ := run_lit_inv _ _ _ _ _ _ h
  rw [dndOpt] at h0
  rcases run_opt_inv _ _ _ _ _ _ h0 with h1 | ⟨-, h2⟩
  · rw [run_cap] at h1
    simp only [str, String.toList, List.map, cats, run_cat, run_eps] at h1
    obtain ⟨t1, rfl, ha⟩ := run_lit_inv _ _ _ _ _ _ h1
    obtain ⟨t2, rfl, hb⟩ := run_lit_inv _ _ _ _ _ _ ha
    obtain ⟨t3, rfl, hc⟩ := run_lit_inv _ _ _ _ _ _ hb
    obtain ⟨t4, rfl, hd⟩ := run_lit_inv _ _ _ _ _ _ hc
    simp only [consumed_cons4, List.set] at hd
    obtain ⟨hF, hk⟩ := forOpt_inv n t4 c0 c1 c2 c3 _ k r hd
    exact ⟨" DND".toList, t4, rfl, Or.inr rfl, hF, hk⟩
  · obtain ⟨hF, hk⟩ := forOpt_inv n t0 c0 c1 c2 c3 _ k r h2
    exact ⟨[], t0, rfl, Or.inl rfl, hF, hk⟩

theorem parenTail_inv {R : Type} (n : Nat) (y : Str) (c0 c1 c2 c3 : Str)
    (k : Str → Caps → Option R) (r : R)
    (h : (Regex.cat parenTail .eps).run n y [c0, c1, c2, c3, [], []] k = some r) :
    ∃ sp emoji D F, y = sp ++ '(' :: (emoji ++ ')' :: (D ++ F)) ∧ sp ≠ [] ∧
      (∀ x ∈ sp, isSpace x = true) ∧ (∀ x ∈ emoji, isDot x = true) ∧
      (D = [] ∨ D = " DND".toList) ∧ ForClause F ∧
      k [] [c0, c1, c2, emoji, D, F.drop 5] = some r := by
  rw [parenTail] at h
  simp only [cats, run_cat, run_eps] at h
  obtain ⟨sp, t0, hsp, rfl, hsp', ha, -⟩ := run_plus_inv _ _ _ _ _ _ h
  obtain ⟨t1, rfl, hb⟩ := run_lit_inv _ _ _ _ _ _ ha
  rw [emojiTail, run_cat, run_cap] at hb
  obtain ⟨emoji, t2, rfl, he, hc⟩ := run_star_inv _ _ _ _ _ _ hb
  simp only [consumed_append, List.set] at hc
  obtain ⟨D, F, rfl, hD, hF, hk⟩ := afterEmoji_inv n t2 c0 c1 c2 emoji k r hc
  exact ⟨sp, emoji, D, F, rfl, hsp, hsp', he, hD, hF, hk⟩

theorem statusCap_inv {R : Type} (n : Nat) (b : Str) (c0 c1 c2 : Str)
    (k : Str → Caps → Option R) (r : R) (hkk : ∀ c, (k [] c).isSome = true)
    (h : (Regex.cap 2 (.plus isDot)).run n b [c0, c1, c2, [], [], []]
      (fun s1 c1 => (Regex.cat parenTail .eps).run n s1 c1 k) = some r) :
    ∃ text sp emoji D F, b = text ++ (sp ++ '(' :: (emoji ++ ')' :: (D ++ F))) ∧ text ≠ [] ∧
      (∀ x ∈ text, isDot x = true) ∧ sp ≠ [] ∧
      (∀ x ∈ sp, isSpace x = true) ∧ (∀ x ∈ emoji, isDot x = true) ∧
      (D = [] ∨ D = " DND".toList) ∧ ForClause F ∧
      k [] [c0, c1, text, emoji, D, F.drop 5] = some r ∧
      (∀ X y, sp ++ '(' :: (emoji ++ ')' :: (D ++ F)) = X ++ y → X ≠ [] →
        (∀ z ∈ X, isDot z = true) → ¬ ParenTailShape y) := by
  rw [run_cap] at h
  obtain ⟨text, b5, hne, rfl, ht, ha, hpr⟩ := run_plus_inv _ _ _ _ _ _ h
  simp only [consumed_append, List.set] at ha
  obtain ⟨sp, emoji, D, F, rfl, hsp, hsp', he, hD, hF, hk⟩ := parenTail_inv _ _ _ _ _ _ _ _ ha
  refine ⟨text, sp, emoji, D, F, rfl, hne, ht, hsp, hsp', he, hD, hF, hk, ?_⟩
  intro X y hXy hX hXd hs
  have h1 := hpr X y hXy hX hXd
  have h2 := parenTail_isSome n y
    (([c0, c1, c2, [], [], []] : Caps).set 2
      (consumed (text ++ (sp ++ '(' :: (emoji ++ ')' :: (D ++ F)))) y)) k hs hkk
  simp only at h1
  rw [h1] at h2
  simp at h2

theorem statusGroup_inv {R : Type} (n : Nat) (b : Str) (c0 c1 : Str)
    (k : Str → Caps → Option R) (r : R) (hkk : ∀ c, (k [] c).isSome = true)
    (h : (Regex.cat statusGroup (.cat parenTail .eps)).run n b [c0, c1, [], [], [], []] k
      = some r) :
    ∃ s0 text sp emoji D F, b = s0 ++ (text ++ (sp ++ '(' :: (emoji ++ ')' :: (D ++ F)))) ∧
      (∀ x ∈ text, isDot x = true) ∧ sp ≠ [] ∧
      (∀ x ∈ sp, isSpace x = true) ∧ (∀ x ∈ emoji, isDot x = true) ∧
      (D = [] ∨ D = " DND".toList) ∧ ForClause F ∧
      k [] [c0, c1, text, emoji, D, F.drop 5] = some r ∧
      (∀ X y, sp ++ '(' :: (emoji ++ ')' :: (D ++ F)) = X ++ y → X ≠ [] →
        (∀ z ∈ X, isDot z = true) → ¬ ParenTailShape y) := by
  rw [run_cat, statusGroup] at h
  rcases run_opt_inv _ _ _ _ _ _ h with h1 | ⟨h1, h2⟩
  · rw [statusText, run_cat] at h1
    rcases run_opt_inv _ _ _ _ _ _ h1 with h3 | ⟨-, h4⟩
    · obtain ⟨b4, rfl, h5⟩ := run_lit_inv _ _ _ _ _ _ h3
      obtain ⟨text, sp, emoji, D, F, rfl, -, ht, hsp, hsp', he, hD, hF, hk, hP⟩ :=
        statusCap_inv n b4 c0 c1 [] k r hkk h5
      exact ⟨[' '], text, sp, emoji, D, F, rfl, ht, hsp, hsp', he, hD, hF, hk, hP⟩
    · obtain ⟨text, sp, emoji, D, F, rfl, -, ht, hsp, hsp', he, hD, hF, hk, hP⟩ :=
        statusCap_inv n b c0 c1 [] k r hkk h4
      exact ⟨[], text, sp, emoji, D, F, rfl, ht, hsp, hsp', he, hD, hF, hk, hP⟩
  · obtain ⟨sp, emoji, D, F, rfl, hsp, hsp', he, hD, hF, hk⟩ := parenTail_inv _ _ _ _ _ _ _ _ h2
    refine ⟨[], [], sp, emoji, D, F, rfl, by simp, hsp, hsp', he, hD, hF, hk, ?_⟩
    intro X y hXy hX hXd hs
    have hl : statusText.Lang n (sp ++ '(' :: (emoji ++ ')' :: (D ++ F))) y :=
      ⟨_, Or.inr rfl, X, hX, hXy, hXd⟩
    have h3 := run_complete n statusText _ y
      (fun s1 c1 => (Regex.cat parenTail .eps).run n s1 c1 k) hl
      (fun c1 => parenTail_isSome n y c1 k hs hkk) [c0, c1, [], [], [], []]
    rw [h1] at h3
    simp at h3

/-- Inversion of a match of the template pattern: the text splits into name, optional spaces,
status text, emoji and suffixes, the groups are those parts, and no longer status text would
have left a matching tail. -/
theorem template_inv (n : Nat) (d : Str) (m : List Str)
    (h : matchAt templatePattern 5 n d = some m) :
    ∃ name s1 s0 text sp emoji D F,
      d = name ++ (s1 ++ '=' :: (s0 ++ (text ++ (sp ++ '(' :: (emoji ++ ')' :: (D ++ F)))))) ∧
      m = [d, name, text, emoji, D, F.drop 5] ∧ d.length = n ∧
      name ≠ [] ∧ (∀ x ∈ name, isNameChar x = true) ∧ (s1 = [] ∨ s1 = [' ']) ∧
      (∀ x ∈ text, isDot x = true) ∧ sp ≠ [] ∧
      (∀ x ∈ sp, isSpace x = true) ∧ (∀ x ∈ emoji, isDot x = true) ∧
      (D = [] ∨ D = " DND".toList) ∧ ForClause F ∧
      (∀ X y, sp ++ '(' :: (emoji ++ ')' :: (D ++ F)) = X ++ y → X ≠ [] →
        (∀ z ∈ X, isDot z = true) → ¬ ParenTailShape y) := by
  rw [matchAt, templatePattern] at h
  simp only [cats, run_cat, run_bot, run_cap] at h
  by_cases hn : d.length = n
  · simp only [hn, if_true] at h
    obtain ⟨name, b1, hne, hd, hname, ha, -⟩ := run_plus_inv _ _ _ _ _ _ h
    simp only [List.replicate, List.set] at ha
    have hs1 : ∃ s1 b2, b1 = s1 ++ '=' :: b2 ∧ (s1 = [] ∨ s1 = [' ']) ∧
        (Regex.cat statusGroup (.cat parenTail .eps)).run n b2 [[], consumed d b1, [], [], [], []]
          (fun s2 c => some (c.set 0 (consumed d s2))) = some m := by
      rcases run_opt_inv _ _ _ _ _ _ ha with h1 | ⟨-, h2⟩
      · obtain ⟨t1, ht1, hb⟩ := run_lit_inv _ _ _ _ _ _ h1
        obtain ⟨t2, ht2, hc⟩ := run_lit_inv _ _ _ _ _ _ hb
        exact ⟨[' '], t2, by rw [ht1, ht2]; rfl, Or.inr rfl, hc⟩
      · obtain ⟨t2, ht2, hc⟩ := run_lit_inv _ _ _ _ _ _ h2
        exact ⟨[], t2, by rw [ht2]; rfl, Or.inl rfl, hc⟩
    obtain ⟨s1, b2, hb1, hs1, hb⟩ := hs1
    obtain ⟨s0, text, sp, emoji, D, F, hb2, ht, hsp, hsp', he, hD, hF, hk, hP⟩ :=
      statusGroup_inv n b2 _ _ (fun s2 c => some (c.set 0 (consumed d s2))) m (fun c => rfl) hb
    refine ⟨name, s1, s0, text, sp, emoji, D, F, ?_, ?_, hn, hne, hname, hs1, ht, hsp, hsp', he,
      hD, hF, hP⟩
    · rw [hd, hb1, hb2]
    · have : consumed d b1 = name := by rw [hd]; exact consumed_append _ _
      rw [this] at hk
      simp only [consumed_nil, List.set, Option.some.injEq] at hk
      exact hk.symm
  · simp [hn] at h

theorem searchFrom_some (re : Regex) (g n : Nat) (s : Str) (m : List Str)
    (h : searchFrom re g n s = some m) : ∃ s1, s1 <:+ s ∧ matchAt re g n s1 = some m := by
  induction s with
  | nil => exact ⟨[], List.suffix_refl _, h⟩
  | cons x t ih =>
    simp only [searchFrom] at h
    cases hgo : matchAt re g n (x :: t) with
    | some r =>
      rw [hgo] at h
      simp only [Option.some.injEq] at h
      subst h
      exact ⟨x :: t, List.suffix_refl _, hgo⟩
    | none =>
      rw [hgo] at h
      obtain ⟨s1, hs1, hm⟩ := ih h
      exact ⟨s1, hs1.trans (List.suffix_cons _ _), hm⟩

/-- The search for the template pattern either finds nothing or matches the whole text. -/
theorem FindStringSubmatch_template (d : Str) :
    FindStringSubmatch templatePattern 5 d = [] ∨
      matchAt templatePattern 5 d.length d = some (FindStringSubmatch templatePattern 5 d) := by
  cases hgo : searchFrom templatePattern 5 d.length d with
  | none => left; simp [FindStringSubmatch, hgo]
  | some m =>
    right
    obtain ⟨s1, hs1, hm⟩ := searchFrom_some _ _ _ _ _ hgo
    obtain ⟨name, s1', s0, text, sp, emoji, D, F, -, -, hlen, -⟩ := template_inv _ _ _ hm
    have := hs1.eq_of_length hlen
    subst this
    simp [FindStringSubmatch, hgo, hm]

theorem isUnitChar_ne_space (x : Char) (h : isUnitChar x = true) : x ≠ ' ' := by
  intro hx; subst hx; revert h; decide

/-- The last character of a matched definition is never a space. -/
theorem suffix_getLast (A D F : Str) (hD : D = [] ∨ D = " DND".toList) (hF : ForClause F) :
    (A ++ ')' :: (D ++ F)).getLast? ≠ some ' ' := by
  rcases hF with rfl | ⟨d, us, rfl, hd, hus, hus'⟩
  · rcases hD with rfl | rfl
    · simp
    · simp [String.toList]
  · have h1 : (A ++ ')' :: (D ++ (" for ".toList ++ d :: us))) =
        (A ++ ')' :: (D ++ (" for ".toList ++ [d]))) ++ us := by simp
    rw [h1, List.getLast?_append_of_ne_nil _ hus]
    intro h
    exact isUnitChar_ne_space _ (hus' _ (List.mem_of_getLast?_eq_some h)) rfl

/-- Match of the template pattern on a definition with no status text: a name, an equals sign,
one space and the parenthesised emoji. -/
theorem match_skip_definition (name s1 emoji D F : Str)
    (hne : name ≠ []) (hname : ∀ x ∈ name, isNameChar x = true) (hs1 : s1 = [] ∨ s1 = [' '])
    (he : ∀ x ∈ emoji, isDot x = true) (hD : D = [] ∨ D = " DND".toList) (hF : ForClause F)
    (hP : ∀ x y, emoji ++ ')' :: (D ++ F) = x ++ y → ¬ ParenTailShape y) :
    FindStringSubmatch templatePattern 5
        (name ++ (s1 ++ '=' :: ' ' :: '(' :: (emoji ++ ')' :: (D ++ F)))) =
      [name ++ (s1 ++ '=' :: ' ' :: '(' :: (emoji ++ ')' :: (D ++ F))),
        name, [], emoji, D, F.drop 5] := by
  apply FindStringSubmatch_of_matchAt
  apply template_head_forward name s1 _ _ hne hname hs1
  apply statusGroup_skip_forward _ emoji D F _ _ _ _ _ he hD hF hP
  simp [consumed_nil]

/-- Match of the template pattern on a definition whose equals sign is followed by two
spaces and the parenthesised emoji: the second space is taken as the status text. -/
theorem match_blank_definition (name emoji D F : Str)
    (hne : name ≠ []) (hname : ∀ x ∈ name, isNameChar x = true)
    (he : ∀ x ∈ emoji, isDot x = true) (hD : D = [] ∨ D = " DND".toList) (hF : ForClause F)
    (hP : ∀ x y, emoji ++ ')' :: (D ++ F) = x ++ y → ¬ ParenTailShape y) :
    FindStringSubmatch templatePattern 5
        (name ++ ([' '] ++ '=' :: ' ' :: ' ' :: '(' :: (emoji ++ ')' :: (D ++ F)))) =
      [name ++ ([' '] ++ '=' :: ' ' :: ' ' :: '(' :: (emoji ++ ')' :: (D ++ F))),
        name, [' '], emoji, D, F.drop 5] := by
  apply FindStringSubmatch_of_matchAt
  apply template_head_forward name [' '] _ _ hne hname (Or.inr rfl)
  apply statusGroup_blank_forward _ emoji D F _ _ _ _ _ he hD hF hP
  simp [consumed_nil]

/-! ### Claims on `parseTemplate` -/

theorem minutes_mul_day (N : Int) : minutesInt64 (N * day) = N * 1440 := by
  have h : N * day = (N * 1440) * Minute := by
    simp only [day, Hour]; ring
  rw [minutesInt64, h]
  exact Int.mul_tdiv_cancel _ (by decide)

theorem minutes_mul_week (N : Int) : minutesInt64 (N * week) = N * 10080 := by
  have h : N * week = (N * 10080) * Minute := by
    simp only [week, day, Hour]; ring
  rw [minutesInt64, h]
  exact Int.mul_tdiv_cancel _ (by decide)

/-- C2: a full definition `name = text (emoji) DND for <digit><d|w>` parses to the fields it was
written from, with presence "away" and the duration in minutes. -/
theorem parseTemplate_full_definition (name text emoji : Str) (k : Nat) (u : Char)
    (hne : name ≠ []) (hname : ∀ x ∈ name, isNameChar x = true)
    (htne : text ≠ []) (htnl : '\n' ∉ text) (_htp : '(' ∉ text ∧ ')' ∉ text)
    (_hts : text.head? ≠ some ' ' ∧ text.getLast? ≠ some ' ')
    (henl : '\n' ∉ emoji) (hep : '(' ∉ emoji ∧ ')' ∉ emoji)
    (hk : k < 10) (hu : u = 'd' ∨ u = 'w') :
    parseTemplate (name ++ " = ".toList ++ text ++ " (".toList ++ emoji ++
        ") DND for ".toList ++ [Char.ofNat (48 + k), u]) =
      ({ Name := name, TeamId := [], Presence := "away".toList, StatusText := text,
         StatusEmoji := emoji, DnD := true,
         Duration := if u = 'd' then (k : Int) * 1440 else (k : Int) * 10080 }, none) := by
  have hF : ForClause (" for ".toList ++ [Char.ofNat (48 + k), u]) :=
    Or.inr ⟨_, [u], rfl, isDigit_ofNat k hk, by simp, by
      intro x hx
      rw [List.mem_singleton] at hx
      rw [hx]; exact isUnitChar_dw u hu⟩
  have hD : (" DND".toList = [] ∨ " DND".toList = " DND".toList) := Or.inr rfl
  have hP : ∀ x y, emoji ++ ')' :: (" DND".toList ++ (" for ".toList ++ [Char.ofNat (48 + k), u]))
      = x ++ y → ¬ ParenTailShape y := by
    apply not_shape_of_no_paren
    have := (suffix_no_paren _ _ hD hF).2
    simp only [List.mem_append, List.mem_cons, not_or]
    exact ⟨hep.1, by decide, by simpa using this⟩
  have hm := match_text_definition name text emoji " DND".toList
    (" for ".toList ++ [Char.ofNat (48 + k), u]) hne hname htne (isDot_of_not_mem _ htnl)
    (isDot_of_not_mem _ henl) hD hF hP
  have hd : name ++ " = ".toList ++ text ++ " (".toList ++ emoji ++
        ") DND for ".toList ++ [Char.ofNat (48 + k), u] =
      name ++ ([' '] ++ '=' :: ' ' :: (text ++ ' ' :: '(' :: (emoji ++ ')' ::
        (" DND".toList ++ (" for ".toList ++ [Char.ofNat (48 + k), u]))))) := by
    simp [String.toList]
  rw [hd]
  simp only [parseTemplate, hm]
  have hdur := parseDuration_digit k hk u hu
  simp only [String.toList, List.cons_append, List.nil_append, List.drop_succ_cons,
    List.drop_zero, List.getD_cons_succ, List.getD_cons_zero] at hdur ⊢
  rw [hdur]
  rcases hu with rfl | rfl
  · simp [minutes_mul_day, PresenceAway, String.toList]
  · simp [minutes_mul_week, PresenceAway, String.toList]

/-- Witness for C2: the definition of the usage message. -/
theorem parseTemplate_full_definition_witness :
    parseTemplate "vacation = I'm on a boat! (⛵️) DND for 1w".toList =
      ({ Name := "vacation".toList, TeamId := [], Presence := "away".toList,
         StatusText := "I'm on a boat!".toList, StatusEmoji := "⛵️".toList, DnD := true,
         Duration := 10080 }, none) :=
  parseTemplate_full_definition "vacation".toList "I'm on a boat!".toList "⛵️".toList 1 'w'
    (by decide) (by decide) (by decide) (by decide) (by decide) (by decide) (by decide)
    (by decide) (by decide) (by decide)

/-- C3, as stated, fails: with no space before the parenthesis the definition is rejected. -/
theorem parseTemplate_name_emoji_counterexample :
    parseTemplate "focus=(🎯)".toList =
      (ActionTemplate.zero, some (Err.invalidDefinition "focus=(🎯)".toList)) := by
  decide

/-- C3 (amended): a definition with only a name and an emoji, `name= (emoji)` with one space
before the parenthesis, parses to that name and emoji, an empty status text, no DND and no
duration. -/
theorem parseTemplate_name_emoji (name emoji : Str)
    (hne : name ≠ []) (hname : ∀ x ∈ name, isNameChar x = true)
    (henl : '\n' ∉ emoji) (hep : '(' ∉ emoji ∧ ')' ∉ emoji) :
    parseTemplate (name ++ "= (".toList ++ emoji ++ ")".toList) =
      ({ Name := name, TeamId := [], Presence := "away".toList, StatusText := [],
         StatusEmoji := emoji, DnD := false, Duration := 0 }, none) := by
  have hP : ∀ x y, emoji ++ ')' :: (([] : Str) ++ []) = x ++ y → ¬ ParenTailShape y := by
    apply not_shape_of_no_paren
    simp only [List.mem_append, List.mem_cons, not_or]
    exact ⟨hep.1, by decide, by simp⟩
  have hm := match_skip_definition name [] emoji [] [] hne hname (Or.inl rfl)
    (isDot_of_not_mem _ henl) (Or.inl rfl) (Or.inl rfl) hP
  have hd : name ++ "= (".toList ++ emoji ++ ")".toList =
      name ++ ([] ++ '=' :: ' ' :: '(' :: (emoji ++ ')' :: (([] : Str) ++ []))) := by
    simp [String.toList]
  rw [hd]
  simp only [parseTemplate, hm]
  simp [parseDuration, minutesInt64, PresenceAway, String.toList]

/-- Witness for C3 (amended): `focus= (🎯)`. -/
theorem parseTemplate_name_emoji_witness :
    parseTemplate "focus= (🎯)".toList =
      ({ Name := "focus".toList, TeamId := [], Presence := "away".toList, StatusText := [],
         StatusEmoji := "🎯".toList, DnD := false, Duration := 0 }, none) :=
  parseTemplate_name_emoji "focus".toList "🎯".toList (by decide) (by decide) (by decide)
    (by decide)

/-- C7: of the durations the invalid-duration message offers as examples, `15m` is rejected
as an invalid definition (the pattern admits a single digit), the other three are accepted. -/
theorem parseTemplate_example_durations :
    parseTemplate "away = brb (x) for 15m".toList =
        (ActionTemplate.zero, some (Err.invalidDefinition "away = brb (x) for 15m".toList)) ∧
      (parseTemplate "away = brb (x) for 1h".toList).2 = none ∧
      (parseTemplate "away = brb (x) for 1h".toList).1.Duration = 60 ∧
      (parseTemplate "away = brb (x) for 2d".toList).2 = none ∧
      (parseTemplate "away = brb (x) for 2d".toList).1.Duration = 2880 ∧
      (parseTemplate "away = brb (x) for 1w".toList).2 = none ∧
      (parseTemplate "away = brb (x) for 1w".toList).1.Duration = 10080 := by
  decide

/-- C8: a definition without an opening or without a closing parenthesis, or one that begins
or ends with a space, is rejected with the invalid-definition error and the zero template. -/
theorem parseTemplate_rejects (d : Str)
    (h : ('(' ∉ d ∨ ')' ∉ d) ∨ (d.head? = some ' ' ∨ d.getLast? = some ' ')) :
    parseTemplate d = (ActionTemplate.zero, some (Err.invalidDefinition d)) ∧
      ∀ quote : Str → Str,
        "Invalid trigger definition ".toList <+: (Err.invalidDefinition d).message quote := by
  refine ⟨?_, fun quote => ?_⟩
  · rcases FindStringSubmatch_template d with h0 | hm
    · simp [parseTemplate, h0]
    · exfalso
      obtain ⟨name, s1, s0, text, sp, emoji, D, F, hd, -, -, hne, hname, -, -, -, -, -, hD, hF,
        -⟩ := template_inv _ _ _ hm
      rcases h with (h1 | h1) | (h1 | h1)
      · apply h1; rw [hd]; simp
      · apply h1; rw [hd]; simp
      · cases name with
        | nil => exact hne rfl
        | cons x name =>
          rw [hd] at h1
          simp only [List.cons_append, List.head?_cons, Option.some.injEq] at h1
          exact (isNameChar_ne x (hname x (List.mem_cons_self _ _))).1 h1
      · have h2 : d = (name ++ (s1 ++ '=' :: (s0 ++ (text ++ (sp ++ '(' :: emoji))))) ++
            ')' :: (D ++ F) := by rw [hd]; simp
        rw [h2] at h1
        exact suffix_getLast _ D F hD hF h1
  · simp only [Err.message, List.append_assoc]
    exact List.prefix_append _ _

/-- Witness for C8: a line without parentheses. -/
theorem parseTemplate_rejects_witness :
    parseTemplate "bad input no parens".toList =
        (ActionTemplate.zero, some (Err.invalidDefinition "bad input no parens".toList)) ∧
      ∀ quote : Str → Str, "Invalid trigger definition ".toList <+:
        (Err.invalidDefinition "bad input no parens".toList).message quote :=
  parseTemplate_rejects "bad input no parens".toList (Or.inl (Or.inl (by decide)))

/-! ### Rendering and parsing back -/

theorem isDot_DND : ∀ x ∈ " DND".toList, isDot x = true := by decide

/-- A tail with a duration clause ends in a unit letter. -/
theorem getLast_unit (A D F : Str) (hF : ForClause F) (hne : F ≠ []) :
    ∃ u, (A ++ ')' :: (D ++ F)).getLast? = some u ∧ isUnitChar u = true := by
  rcases hF with rfl | ⟨d, us, rfl, -, hus, hus'⟩
  · exact absurd rfl hne
  · have h1 : (A ++ ')' :: (D ++ (" for ".toList ++ d :: us))) =
        (A ++ ')' :: (D ++ (" for ".toList ++ [d]))) ++ us := by simp
    rw [h1, List.getLast?_append_of_ne_nil _ hus]
    cases hl : us.getLast? with
    | none => simp [List.getLast?_eq_none_iff] at hl; exact absurd hl hus
    | some u => exact ⟨u, rfl, hus' u (List.mem_of_getLast?_eq_some hl)⟩

/-- Appending the duration clause of the original definition to a tail of its rendering that
matches keeps it matching. -/
theorem shape_append (emoji D F x y : Str) (hD : D = [] ∨ D = " DND".toList) (hF : ForClause F)
    (hxy : emoji ++ ')' :: D = x ++ y) (hs : ParenTailShape y) : ParenTailShape (y ++ F) := by
  by_cases hFe : F = []
  · subst hFe; simpa using hs
  · obtain ⟨sp1, e1, D1, F1, rfl, hsp1, hsp1', he1, hD1, hF1⟩ := hs
    have hF1e : F1 = [] := by
      by_contra hne
      obtain ⟨u, hu, hu'⟩ := getLast_unit (sp1 ++ '(' :: e1) D1 F1 hF1 hne
      have h2 : sp1 ++ '(' :: (e1 ++ ')' :: (D1 ++ F1)) ≠ [] := by
        cases sp1 with
        | nil => exact absurd rfl hsp1
        | cons a sp1 => simp
      have h3 : (emoji ++ ')' :: D).getLast? = some u := by
        rw [hxy, List.getLast?_append_of_ne_nil _ h2]
        have h4 : sp1 ++ '(' :: (e1 ++ ')' :: (D1 ++ F1)) =
            (sp1 ++ '(' :: e1) ++ ')' :: (D1 ++ F1) := by simp
        rw [h4]; exact hu
      rcases hD with rfl | rfl
      · have : u = ')' := by simpa using h3.symm
        subst this; revert hu'; decide
      · have : u = 'D' := by
          have h5 : emoji ++ ')' :: " DND".toList = (emoji ++ [')', ' ', 'D', 'N']) ++ ['D'] := by
            simp [String.toList]
          rw [h5, List.getLast?_concat] at h3
          simpa using h3.symm
        subst this; revert hu'; decide
    subst hF1e
    refine ⟨sp1, e1, D1, F, by simp, hsp1, hsp1', he1, hD1, hF⟩

/-- Priority transfer: what no longer status text could leave behind in the original
definition, no proper tail of the rendered emoji part can be. -/
theorem shape_transfer (sp emoji D F : Str) (hsp : ∀ x ∈ sp, isSpace x = true)
    (hspne : sp ≠ [])
    (he : ∀ x ∈ emoji, isDot x = true) (hD : D = [] ∨ D = " DND".toList) (hF : ForClause F)
    (hP : ∀ X y, sp ++ '(' :: (emoji ++ ')' :: (D ++ F)) = X ++ y → X ≠ [] →
        (∀ z ∈ X, isDot z = true) → ¬ ParenTailShape y) :
    ∀ x y, emoji ++ ')' :: (D ++ []) = x ++ y → ¬ ParenTailShape y := by
  intro x y hxy hs
  rw [List.append_nil] at hxy
  have hs' := shape_append emoji D F x y hD hF hxy hs
  refine hP (sp ++ '(' :: x) (y ++ F) ?_ ?_ ?_ hs'
  · have : emoji ++ ')' :: (D ++ F) = x ++ (y ++ F) := by
      rw [← List.append_assoc, ← hxy]; simp
    rw [this]; simp
  · cases sp with
    | nil => exact absurd rfl hspne
    | cons a sp => simp
  · intro z hz
    rcases List.mem_append.mp hz with hz | hz
    · exact isDot_of_isSpace z (hsp z hz)
    · rcases List.mem_cons.mp hz with rfl | hz
      · decide
      · have hz' : z ∈ emoji ++ ')' :: D := by rw [hxy]; exact List.mem_append_left _ hz
        rcases List.mem_append.mp hz' with h1 | h1
        · exact he z h1
        · rcases List.mem_cons.mp h1 with rfl | h1
          · decide
          · rcases hD with rfl | rfl
            · simp at h1
            · exact isDot_DND z h1

/-- What `parseTemplate` returns on success, in terms of the parts of the definition. -/
theorem parseTemplate_ok_inv (d : Str) (t : ActionTemplate) (h : parseTemplate d = (t, none)) :
    ∃ name s1 s0 text sp emoji D F,
      d = name ++ (s1 ++ '=' :: (s0 ++ (text ++ (sp ++ '(' :: (emoji ++ ')' :: (D ++ F)))))) ∧
      t = { Name := name, TeamId := [], Presence := PresenceAway, StatusText := text,
            StatusEmoji := emoji, DnD := decide (D ≠ []),
            Duration := minutesInt64 (parseDuration (F.drop 5)).1 } ∧
      name ≠ [] ∧ (∀ x ∈ name, isNameChar x = true) ∧
      (∀ x ∈ text, isDot x = true) ∧ sp ≠ [] ∧
      (∀ x ∈ sp, isSpace x = true) ∧ (∀ x ∈ emoji, isDot x = true) ∧
      (D = [] ∨ D = " DND".toList) ∧ ForClause F ∧
      (∀ X y, sp ++ '(' :: (emoji ++ ')' :: (D ++ F)) = X ++ y → X ≠ [] →
        (∀ z ∈ X, isDot z = true) → ¬ ParenTailShape y) := by
  rcases FindStringSubmatch_template d with h0 | hm
  · simp [parseTemplate, h0] at h
  · obtain ⟨name, s1, s0, text, sp, emoji, D, F, hd, hmm, -, hne, hname, -, ht, hsp, hsp', he,
      hD, hF, hP⟩ := template_inv _ _ _ hm
    refine ⟨name, s1, s0, text, sp, emoji, D, F, hd, ?_, hne, hname, ht, hsp, hsp', he, hD, hF,
      hP⟩
    simp only [parseTemplate, hmm] at h
    simp only [List.length_cons, List.length_nil, List.getD_cons_succ, List.getD_cons_zero] at h
    by_cases hdur : (parseDuration (F.drop 5)).2.isSome = true
    · simp [hdur] at h
    · simp only [hdur] at h
      simp only [Nat.reduceAdd, OfNat.ofNat_ne_zero, if_false, Prod.mk.injEq, and_true] at h
      simpa using h.symm

/-- C1 (amended): when `parseTemplate` accepts a definition and yields a template with a
non-empty emoji and no duration, parsing the rendering of the template succeeds and gives back
the same name, emoji, DND flag and duration, and the status text preceded by one space. -/
theorem parseTemplate_ToString_roundtrip (d : Str) (t : ActionTemplate)
    (h : parseTemplate d = (t, none)) (hemoji : t.StatusEmoji ≠ []) (hdur : t.Duration = 0) :
    ∃ t1, parseTemplate t.ToString = (t1, none) ∧ t1.Name = t.Name ∧
      t1.StatusText = ' ' :: t.StatusText ∧ t1.StatusEmoji = t.StatusEmoji ∧
      t1.DnD = t.DnD ∧ t1.Duration = t.Duration := by
  obtain ⟨name, s1, s0, text, sp, emoji, D, F, -, rfl, hne, hname, ht, hsp, hsp', he, hD, hF,
    hP⟩ := parseTemplate_ok_inv d t h
  simp only at hemoji hdur
  clear h
  generalize minutesInt64 (parseDuration (List.drop 5 F)).1 = dur at hdur ⊢
  subst hdur
  have hPr := shape_transfer sp emoji D F hsp' hsp he hD hF hP
  have hdnd : (if decide (D ≠ []) = true then " DND".toList else []) = D := by
    rcases hD with rfl | rfl
    · simp
    · simp [String.toList]
  by_cases htext : text = []
  · subst htext
    have hm := match_blank_definition name emoji D [] hne hname he hD (Or.inl rfl) hPr
    have hr : ActionTemplate.ToString
        { Name := name, TeamId := [], Presence := PresenceAway, StatusText := [],
          StatusEmoji := emoji, DnD := decide (D ≠ []), Duration := 0 } =
        name ++ ([' '] ++ '=' :: ' ' :: ' ' :: '(' :: (emoji ++ ')' :: (D ++ []))) := by
      simp only [ActionTemplate.ToString, hdnd]
      simp [String.toList, hemoji]
    rw [hr]
    simp only [parseTemplate, hm]
    simp [parseDuration, minutesInt64]
  · have hm := match_text_definition name (' ' :: text) emoji D [] hne hname (by simp)
      (by
        intro x hx
        rcases List.mem_cons.mp hx with rfl | hx
        · decide
        · exact ht x hx) he hD (Or.inl rfl) hPr
    have hr : ActionTemplate.ToString
        { Name := name, TeamId := [], Presence := PresenceAway, StatusText := text,
          StatusEmoji := emoji, DnD := decide (D ≠ []), Duration := 0 } =
        name ++ ([' '] ++ '=' :: ' ' :: ((' ' :: text) ++ ' ' :: '(' ::
          (emoji ++ ')' :: (D ++ [])))) := by
      simp only [ActionTemplate.ToString, hdnd]
      simp [String.toList, hemoji, htext]
    rw [hr]
    simp only [parseTemplate, hm]
    simp [parseDuration, minutesInt64]

/-- Witness for C1 (amended): the definition of the usage message without its duration. -/
theorem parseTemplate_ToString_roundtrip_witness :
    ∃ t1, parseTemplate (ActionTemplate.ToString
        { Name := "vacation".toList, TeamId := [], Presence := PresenceAway,
          StatusText := "I'm on a boat!".toList, StatusEmoji := "⛵️".toList, DnD := true,
          Duration := 0 }) = (t1, none) ∧
      t1.Name = "vacation".toList ∧ t1.StatusText = ' ' :: "I'm on a boat!".toList ∧
      t1.StatusEmoji = "⛵️".toList ∧ t1.DnD = true ∧ t1.Duration = 0 :=
  parseTemplate_ToString_roundtrip "vacation = I'm on a boat! (⛵️) DND".toList
    { Name := "vacation".toList, TeamId := [], Presence := PresenceAway,
      StatusText := "I'm on a boat!".toList, StatusEmoji := "⛵️".toList, DnD := true,
      Duration := 0 } (by decide) (by decide) (by decide)

set_option maxRecDepth 8000 in
/-- C1, as stated, fails: the rendering of the template parsed from the usage example is
rejected by `parseTemplate`, and the rendering of a template without duration parses back to
a status text with one more leading space. -/
theorem parseTemplate_ToString_roundtrip_counterexample :
    (parseTemplate "vacation = I'm on a boat! (⛵️) DND for 1w".toList).2 = none ∧
      (parseTemplate "vacation = I'm on a boat! (⛵️) DND for 1w".toList).1.StatusEmoji ≠ [] ∧
      (parseTemplate "vacation = I'm on a boat! (⛵️) DND for 1w".toList).1.ToString =
        "vacation =  I'm on a boat! (⛵️) DND for 10.08µs".toList ∧
      parseTemplate
          (parseTemplate "vacation = I'm on a boat! (⛵️) DND for 1w".toList).1.ToString =
        (ActionTemplate.zero,
          some (Err.invalidDefinition
            "vacation =  I'm on a boat! (⛵️) DND for 10.08µs".toList)) ∧
      (parseTemplate "vacation = vacay (🌴)".toList).2 = none ∧
      (parseTemplate "vacation = vacay (🌴)".toList).1.StatusText = "vacay".toList ∧
      (parseTemplate (parseTemplate "vacation = vacay (🌴)".toList).1.ToString).2 = none ∧
      (parseTemplate (parseTemplate "vacation = vacay (🌴)".toList).1.ToString).1.StatusText =
        " vacay".toList := by
  refine ⟨by decide, by decide, by decide, by decide, by decide, by decide, by decide, by decide⟩

/-! ### Claims on `ToString` -/

/-- C4, as stated, fails on its own example: the rendering has two spaces after the equals
sign. -/
theorem ToString_format_counterexample :
    ActionTemplate.ToString
        { Name := "vacation".toList, TeamId := [], Presence := PresenceAway,
          StatusText := "vacay".toList, StatusEmoji := "🌴".toList, DnD := false,
          Duration := 0 } = "vacation =  vacay (🌴)".toList ∧
      ActionTemplate.ToString
        { Name := "vacation".toList, TeamId := [], Presence := PresenceAway,
          StatusText := "vacay".toList, StatusEmoji := "🌴".toList, DnD := false,
          Duration := 0 } ≠ "vacation = vacay (🌴)".toList := by
  decide

/-- C4 (amended): the rendering is the name, ` = `, then the status text preceded by a space
when it is non-empty, the emoji in parentheses preceded by a space when it is non-empty,
` DND` when the flag is set, and ` for ` with the rendered duration when it is not zero. -/
theorem ToString_format (t : ActionTemplate) :
    t.ToString =
      t.Name ++ " = ".toList ++
        (if t.StatusText = [] then [] else " ".toList ++ t.StatusText) ++
        (if t.StatusEmoji = [] then [] else " (".toList ++ t.StatusEmoji ++ ")".toList) ++
        (if t.DnD = true then " DND".toList else []) ++
        (if t.Duration = 0 then [] else " for ".toList ++ DurationString t.Duration) := by
  simp only [ActionTemplate.ToString, ne_eq, ite_not]

/-- C5: the duration of a template is a count of minutes, and `ToString` renders that count
as nanoseconds: 120 minutes come out as `120ns` and a week as `10.08µs`, not `2h0m0s` and
`168h0m0s`. -/
theorem ToString_duration_nanoseconds :
    ActionTemplate.ToString
        { Name := "a".toList, TeamId := [], Presence := PresenceAway, StatusText := [],
          StatusEmoji := [], DnD := false, Duration := 120 } = "a =  for 120ns".toList ∧
      ActionTemplate.ToString
        { Name := "a".toList, TeamId := [], Presence := PresenceAway, StatusText := [],
          StatusEmoji := [], DnD := false, Duration := 10080 } = "a =  for 10.08µs".toList ∧
      DurationString (120 * Minute) = "2h0m0s".toList ∧
      DurationString (10080 * Minute) = "168h0m0s".toList := by
  decide

/-! ### The loop of `time.ParseDuration` -/

theorem leadingInt_length (s : Str) : ∀ x, (leadingInt s x).2.1.length ≤ s.length := by
  induction s with
  | nil => intro x; simp [leadingInt]
  | cons c t ih =>
    intro x
    simp only [leadingInt]
    split
    · split
      · simp
      · split
        · simp
        · exact Nat.le_succ_of_le (ih _)
    · simp

theorem leadingFraction_length (s : Str) :
    ∀ x sc o, (leadingFraction s x sc o).2.2.length ≤ s.length := by
  induction s with
  | nil => intro x sc o; simp [leadingFraction]
  | cons c t ih =>
    intro x sc o
    simp only [leadingFraction]
    split
    · split
      · exact Nat.le_succ_of_le (ih _ _ _)
      · split
        · exact Nat.le_succ_of_le (ih _ _ _)
        · split
          · exact Nat.le_succ_of_le (ih _ _ _)
          · exact Nat.le_succ_of_le (ih _ _ _)
    · simp

theorem dropWhile_length_lt (l : Str) (p : Char → Bool) (h : l.takeWhile p ≠ []) :
    (l.dropWhile p).length < l.length := by
  have h1 : (l.takeWhile p ++ l.dropWhile p).length = l.length := by
    rw [List.takeWhile_append_dropWhile]
  rw [List.length_append] at h1
  have h2 : 0 < (l.takeWhile p).length := List.length_pos.mpr h
  omega

/-- A term of a duration consumes at least one character. -/
theorem parseTerm_length (orig s : Str) (d : Nat) (rest : Str) (d1 : Nat)
    (h : parseTerm orig s d = .ok (rest, d1)) : rest.length < s.length := by
  have hlen : (if (leadingInt s 0).2.1.head? == some '.' then
      leadingFraction (leadingInt s 0).2.1.tail 0 1 false
      else (0, 1, (leadingInt s 0).2.1)).2.2.length ≤ s.length := by
    have h2 := leadingInt_length s 0
    split
    · refine Nat.le_trans (leadingFraction_length _ _ _ _) ?_
      refine Nat.le_trans ?_ h2
      simp
    · exact h2
  unfold parseTerm at h
  simp only at h
  generalize (if (leadingInt s 0).2.1.head? == some '.' then
      leadingFraction (leadingInt s 0).2.1.tail 0 1 false
      else (0, 1, (leadingInt s 0).2.1)) = lf at h hlen
  split at h
  · simp at h
  · split at h
    · simp at h
    · split at h
      · simp at h
      · split at h
        · simp at h
        · rename_i hu
          split at h
          · simp at h
          · split at h
            · simp at h
            · split at h
              · simp at h
              · split at h
                · simp at h
                · simp only [Except.ok.injEq, Prod.mk.injEq] at h
                  rw [← h.1]
                  exact Nat.lt_of_lt_of_le (dropWhile_length_lt _ _ hu) hlen

/-- The fuel of `parseTerms` is never exhausted: from the length of the string on, more fuel
does not change the result. -/
theorem parseTerms_fuel (orig : Str) :
    ∀ (fuel : Nat) (s : Str) (d : Nat), s.length ≤ fuel →
      parseTerms orig (fuel + 1) s d = parseTerms orig fuel s d := by
  intro fuel
  induction fuel with
  | zero =>
    intro s d h
    have : s = [] := List.length_eq_zero.mp (Nat.le_zero.mp h)
    subst this
    simp [parseTerms]
  | succ fuel ih =>
    intro s d h
    rw [parseTerms, parseTerms.eq_def orig (fuel + 1)]
    simp only
    by_cases hs : s = []
    · simp [hs]
    · simp only [hs, if_false]
      cases hp : parseTerm orig s d with
      | error e => rfl
      | ok v =>
        obtain ⟨rest, d1⟩ := v
        have := parseTerm_length orig s d rest d1 hp
        exact ih rest d1 (by omega)

theorem parseTerms_fuel_ge (orig : Str) (s : Str) (d : Nat) :
    ∀ extra : Nat, parseTerms orig (s.length + extra) s d = parseTerms orig s.length s d := by
  intro extra
  induction extra with
  | zero => rfl
  | succ e ih =>
    rw [← ih]
    exact parseTerms_fuel orig (s.length + e) s d (Nat.le_add_right _ _)


/-! ### Claims on `parseDuration` -/

theorem isDigit_not_dayweek (u : Char) (hu : u = 'd' ∨ u = 'w') : isDigit u = false := by
  rcases hu with rfl | rfl <;> decide

theorem isDayWeek_dw (u : Char) (hu : u = 'd' ∨ u = 'w') : isDayWeek u = true := by
  rcases hu with rfl | rfl <;> decide

/-- Match of the shorthand pattern on digits followed by `d` or `w`. -/
theorem match_shorthand (n : Str) (u : Char) (hne : n ≠ [])
    (hdig : ∀ x ∈ n, isDigit x = true) (hu : u = 'd' ∨ u = 'w') :
    FindStringSubmatch shorthandPattern 2 (n ++ [u]) = [n ++ [u], n, [u]] := by
  apply FindStringSubmatch_of_matchAt
  rw [matchAt, shorthandPattern]
  simp only [cats, run_cat, run_bot, if_true, run_cap]
  apply run_plus_forward _ isDigit _ n _ _ _ hne hdig
  · simp [consumed_append, consumed_nil, Regex.run, isDayWeek_dw u hu, consumed]
  · intro x y hxy hx hpx
    cases x with
    | nil => exact absurd rfl hx
    | cons z x' =>
      simp only [List.cons_append, List.cons.injEq] at hxy
      have h1 := hpx z (List.mem_cons_self _ _)
      rw [← hxy.1, isDigit_not_dayweek u hu] at h1
      simp at h1

/-- `Atoi` on a non-empty string of digits. -/
theorem Atoi_digits (n : Str) (hne : n ≠ []) (hdig : ∀ x ∈ n, isDigit x = true) :
    Atoi n = if digitsValue n < 2 ^ 63 then ((digitsValue n : Int), none)
      else (2 ^ 63 - 1, some (.atoiRange n)) := by
  cases n with
  | nil => exact absurd rfl hne
  | cons c t =>
    have hc := hdig c (List.mem_cons_self _ _)
    have h1 : c ≠ '-' := by intro h; subst h; revert hc; decide
    have h2 : c ≠ '+' := by intro h; subst h; revert hc; decide
    have hall : (c :: t).all isDigit = true := by
      rw [List.all_eq_true]; exact hdig
    simp only [Atoi, List.head?_cons]
    simp [h1, h2, hall]

theorem wrap64_of_range (x : Int) (h0 : -2 ^ 63 ≤ x) (h1 : x < 2 ^ 63) : wrap64 x = x := by
  unfold wrap64
  rw [Int.emod_eq_of_lt (by omega) (by omega)]
  omega

/-- C6, as stated, fails: `200000` converts to an integer, but 200000 days overflow the 64-bit
count of nanoseconds and the result wraps around to a negative duration. -/
theorem parseDuration_shorthand_counterexample :
    (Atoi "200000".toList).2 = none ∧
      parseDuration "200000d".toList = (-1166744073709551616, none) ∧
      minutesInt64 (parseDuration "200000d".toList).1 ≠ 200000 * 24 * 60 := by
  decide

/-- C6 (amended): for a numeral `n` that `Atoi` converts and whose count of days or weeks fits
a 64-bit signed count of nanoseconds, `parseDuration(n ++ u)` returns no error and that count,
whose minute count is `n * 24 * 60` for `d` and `n * 7 * 24 * 60` for `w`. -/
theorem parseDuration_shorthand (n : Str) (u : Char) (hne : n ≠ [])
    (hdig : ∀ x ∈ n, isDigit x = true) (hu : u = 'd' ∨ u = 'w')
    (hatoi : (Atoi n).2 = none)
    (hfit : (digitsValue n : Int) * (if u = 'd' then day else week) < 2 ^ 63) :
    parseDuration (n ++ [u]) =
        ((digitsValue n : Int) * (if u = 'd' then day else week), none) ∧
      minutesInt64 (parseDuration (n ++ [u])).1 =
        (digitsValue n : Int) * (if u = 'd' then 24 * 60 else 7 * 24 * 60) ∧
      -2 ^ 63 ≤ (parseDuration (n ++ [u])).1 ∧ (parseDuration (n ++ [u])).1 < 2 ^ 63 := by
  have hm := match_shorthand n u hne hdig hu
  have ha := Atoi_digits n hne hdig
  have hlt : digitsValue n < 2 ^ 63 := by
    by_contra hge
    rw [ha, if_neg hge] at hatoi
    simp at hatoi
  rw [if_pos hlt] at ha
  have hpos : (0 : Int) ≤ (digitsValue n : Int) * (if u = 'd' then day else week) := by
    apply Int.mul_nonneg (Int.ofNat_nonneg _)
    split <;> decide
  have hval : parseDuration (n ++ [u]) =
      ((digitsValue n : Int) * (if u = 'd' then day else week), none) := by
    have hne' : n ++ [u] ≠ [] := by simp
    simp only [parseDuration, hne', if_false, hm, List.length_cons, List.length_nil,
      List.getD_cons_succ, List.getD_cons_zero, ha]
    rcases hu with rfl | rfl
    · simp only [if_true] at hfit hpos ⊢
      simp [String.toList, wrap64_of_range _ (by omega) hfit]
    · have hw : ¬ ('w' = 'd') := by decide
      simp only [hw, if_false] at hfit hpos ⊢
      simp [String.toList, wrap64_of_range _ (by omega) hfit]
  refine ⟨hval, ?_, ?_, ?_⟩
  · rw [hval]
    rcases hu with rfl | rfl
    · simpa using minutes_mul_day _
    · have hw : ¬ ('w' = 'd') := by decide
      simp only [hw, if_false]
      simpa using minutes_mul_week _
  · rw [hval]; omega
  · rw [hval]; exact hfit

/-- Witness for C6 (amended): twelve days. -/
theorem parseDuration_shorthand_witness :
    parseDuration "12d".toList = (12 * day, none) ∧
      minutesInt64 (parseDuration "12d".toList).1 = 12 * 24 * 60 ∧
      -2 ^ 63 ≤ (parseDuration "12d".toList).1 ∧
      (parseDuration "12d".toList).1 < 2 ^ 63 :=
  parseDuration_shorthand "12".toList 'd' (by decide) (by decide) (by decide) (by decide)
    (by decide)

/-! ### Claims on `updateSlackStatus` and `ListTriggers` -/

/-- Recording does not change what the service answers: on the recording service
`updateSlackStatus` returns the same error and leaves the underlying service in the same state
as on the service itself. -/
theorem updateSlackStatus_recording {σ : Type} (token : Str × Option Err) (api : SlackApi σ)
    (s0 : σ) (log : List SlackCall) (payload : SlackPayload) (action : Action) :
    (updateSlackStatus token (recording api) (s0, log) payload action).1 =
        (updateSlackStatus token api s0 payload action).1 ∧
      (updateSlackStatus token (recording api) (s0, log) payload action).2.1 =
        (updateSlackStatus token api s0 payload action).2 := by
  simp only [updateSlackStatus, recording]
  repeat' split
  all_goals exact ⟨rfl, rfl⟩

/-- C9: DND reconciliation in `updateSlackStatus`, run on a Slack service that records the
calls it receives, starting with an empty record.  When the token lookup, `SetUserPresence`
and `SetUserCustomStatus` succeed, the service has received, in this order, the presence call
and the status call (with the action's fields), and then (a) with DnD unset and snooze
reported enabled, `GetDNDInfo` and exactly one `EndSnooze`, no `SetSnooze`; (b) with DnD unset
and snooze reported not enabled, `GetDNDInfo` alone; (c) with DnD set, exactly one `SetSnooze`
whose argument is the action's duration, and neither `GetDNDInfo` nor `EndSnooze`, whatever
the state of the service.  The returned error is the answer of the last call, and the service
is left in the state that call produced. -/
theorem updateSlackStatus_calls {σ : Type} (token : Str × Option Err) (api : SlackApi σ)
    (s0 s1 s2 : σ) (payload : SlackPayload) (action : Action)
    (htoken : token.2 = none)
    (hpresence : api.SetUserPresence s0 action.Presence = (none, s1))
    (hstatus : api.SetUserCustomStatus s1 action.StatusText action.StatusEmoji action.Duration =
      (none, s2)) :
    (action.DnD = false → ∀ s3, api.GetDNDInfo s2 payload.UserId = ((true, none), s3) →
      updateSlackStatus token (recording api) (s0, []) payload action =
          ((api.EndSnooze s3).1.map (fun e => wrapText e "could not end do not disturb"),
            (api.EndSnooze s3).2,
            [.SetUserPresence action.Presence,
              .SetUserCustomStatus action.StatusText action.StatusEmoji action.Duration,
              .GetDNDInfo payload.UserId, .EndSnooze]) ∧
        (updateSlackStatus token (recording api) (s0, []) payload action).2.2.count
          .EndSnooze = 1 ∧
        ∀ m, SlackCall.SetSnooze m ∉
          (updateSlackStatus token (recording api) (s0, []) payload action).2.2) ∧
    (action.DnD = false → ∀ s3, api.GetDNDInfo s2 payload.UserId = ((false, none), s3) →
      updateSlackStatus token (recording api) (s0, []) payload action =
          (none, s3,
            [.SetUserPresence action.Presence,
              .SetUserCustomStatus action.StatusText action.StatusEmoji action.Duration,
              .GetDNDInfo payload.UserId]) ∧
        SlackCall.EndSnooze ∉
          (updateSlackStatus token (recording api) (s0, []) payload action).2.2 ∧
        ∀ m, SlackCall.SetSnooze m ∉
          (updateSlackStatus token (recording api) (s0, []) payload action).2.2) ∧
    (action.DnD = true →
      updateSlackStatus token (recording api) (s0, []) payload action =
          ((api.SetSnooze s2 action.Duration).1.map
              (fun e => wrapText e "could not set do not disturb"),
            (api.SetSnooze s2 action.Duration).2,
            [.SetUserPresence action.Presence,
              .SetUserCustomStatus action.StatusText action.StatusEmoji action.Duration,
              .SetSnooze action.Duration]) ∧
        (∀ m, SlackCall.SetSnooze m ∈
            (updateSlackStatus token (recording api) (s0, []) payload action).2.2 →
          m = action.Duration) ∧
        (updateSlackStatus token (recording api) (s0, []) payload action).2.2.count
          (.SetSnooze action.Duration) = 1 ∧
        SlackCall.EndSnooze ∉
          (updateSlackStatus token (recording api) (s0, []) payload action).2.2 ∧
        ∀ user, SlackCall.GetDNDInfo user ∉
          (updateSlackStatus token (recording api) (s0, []) payload action).2.2) := by
  refine ⟨?_, ?_, ?_⟩
  · intro hd s3 hinfo
    have hrun : updateSlackStatus token (recording api) (s0, []) payload action =
        ((api.EndSnooze s3).1.map (fun e => wrapText e "could not end do not disturb"),
          (api.EndSnooze s3).2,
          [.SetUserPresence action.Presence,
            .SetUserCustomStatus action.StatusText action.StatusEmoji action.Duration,
            .GetDNDInfo payload.UserId, .EndSnooze]) := by
      simp only [updateSlackStatus, recording, htoken, hpresence, hstatus, hd, hinfo, if_true,
        List.nil_append, List.cons_append]
      cases (api.EndSnooze s3).1 <;> rfl
    rw [hrun]
    exact ⟨rfl, by simp [List.count_cons], by simp⟩
  · intro hd s3 hinfo
    have hrun : updateSlackStatus token (recording api) (s0, []) payload action =
        (none, s3,
          [.SetUserPresence action.Presence,
            .SetUserCustomStatus action.StatusText action.StatusEmoji action.Duration,
            .GetDNDInfo payload.UserId]) := by
      simp [updateSlackStatus, recording, htoken, hpresence, hstatus, hd, hinfo]
    rw [hrun]
    exact ⟨rfl, by simp, by simp⟩
  · intro hd
    have hrun : updateSlackStatus token (recording api) (s0, []) payload action =
        ((api.SetSnooze s2 action.Duration).1.map
            (fun e => wrapText e "could not set do not disturb"),
          (api.SetSnooze s2 action.Duration).2,
          [.SetUserPresence action.Presence,
            .SetUserCustomStatus action.StatusText action.StatusEmoji action.Duration,
            .SetSnooze action.Duration]) := by
      simp only [updateSlackStatus, recording, htoken, hpresence, hstatus, hd,
        List.nil_append, List.cons_append]
      simp only [Bool.true_eq_false, if_false]
      cases (api.SetSnooze s2 action.Duration).1 <;> rfl
    rw [hrun]
    refine ⟨rfl, ?_, ?_, by simp, by simp⟩
    · intro m hm
      simpa using hm
    · simp [List.count_cons]

/-- Witness for C9: the three cases on the sample service, which starts with snooze enabled
in the first case; the record and the final snooze flag are those of the calls made. -/
theorem updateSlackStatus_calls_witness :
    updateSlackStatus ([], none) (recording sampleApi) (true, []) samplePayload
          (sampleAction false) =
        (none, false,
          [.SetUserPresence PresenceAway, .SetUserCustomStatus "brb".toList ":x:".toList 30,
            .GetDNDInfo "U1".toList, .EndSnooze]) ∧
      updateSlackStatus ([], none) (recording sampleApi) (false, []) samplePayload
          (sampleAction false) =
        (none, false,
          [.SetUserPresence PresenceAway, .SetUserCustomStatus "brb".toList ":x:".toList 30,
            .GetDNDInfo "U1".toList]) ∧
      updateSlackStatus ([], none) (recording sampleApi) (false, []) samplePayload
          (sampleAction true) =
        (none, true,
          [.SetUserPresence PresenceAway, .SetUserCustomStatus "brb".toList ":x:".toList 30,
            .SetSnooze 30]) :=
  ⟨((updateSlackStatus_calls ([], none) sampleApi true true true samplePayload
      (sampleAction false) rfl rfl rfl).1 rfl true rfl).1,
    ((updateSlackStatus_calls ([], none) sampleApi false false false samplePayload
      (sampleAction false) rfl rfl rfl).2.1 rfl false rfl).1,
    ((updateSlackStatus_calls ([], none) sampleApi false false false samplePayload
      (sampleAction true) rfl rfl rfl).2.2 rfl).1⟩

theorem renderTriggers_ok (env : Storage) (userId userDir : Str) (keys : List Str) :
    ∀ ts : List ActionTemplate,
      keys.map (fun k => getTrigger env userId (TrimPrefix k userDir)) =
        ts.map (fun t => (t, none)) →
      renderTriggers env userId userDir keys = (ts.map ActionTemplate.ToString, none) := by
  induction keys with
  | nil =>
    intro ts h
    cases ts with
    | nil => rfl
    | cons t ts => simp at h
  | cons k keys ih =>
    intro ts h
    cases ts with
    | nil => simp at h
    | cons t ts =>
      simp only [List.map_cons, List.cons.injEq] at h
      simp only [renderTriggers, h.1, ih ts h.2, List.map_cons]

theorem renderTriggers_fail (env : Storage) (userId userDir : Str) (pre : List Str) (k : Str)
    (post : List Str) (e : Err)
    (hpre : ∀ x ∈ pre, (getTrigger env userId (TrimPrefix x userDir)).2 = none)
    (hk : (getTrigger env userId (TrimPrefix k userDir)).2 = some e) :
    renderTriggers env userId userDir (pre ++ k :: post) = ([], some e) := by
  induction pre with
  | nil => simp only [List.nil_append, renderTriggers, hk]
  | cons x pre ih =>
    have hx := hpre x (List.mem_cons_self _ _)
    have := ih (fun y hy => hpre y (List.mem_cons_of_mem _ hy))
    simp only [List.cons_append, renderTriggers, hx]
    show (match renderTriggers env userId userDir (pre ++ k :: post) with
      | (_, some e) => ([], some e)
      | (triggers, none) =>
        ((getTrigger env userId (TrimPrefix x userDir)).1.ToString :: triggers, none)) = _
    rw [this]

/-- C10: when the listing of the user's prefix succeeds with keys `k1..kN`, `ListTriggers`
returns the renderings of the fetched triggers joined by newlines, in the order of the keys,
if every fetch succeeds; and the error of the first failing fetch with the zero message
otherwise. -/
theorem ListTriggers_listing (env : Storage) (r : ListTriggersRequest) (keys : List Str)
    (hclient : env.NewStorageClient.2 = none)
    (hlist : env.NewStorageClient.1.listContainer "triggers".toList (r.UserId ++ "/".toList) =
      (keys, none)) :
    (∀ ts : List ActionTemplate,
      keys.map (fun k => getTrigger env r.UserId (TrimPrefix k (r.UserId ++ "/".toList))) =
        ts.map (fun t => (t, none)) →
      ListTriggers env r =
        ({ ResponseType := ResponseTypeEphemeral,
           Text := stringsJoin (ts.map ActionTemplate.ToString) "\n".toList }, none)) ∧
    (∀ (pre : List Str) (k : Str) (post : List Str) (e : Err), keys = pre ++ k :: post →
      (∀ x ∈ pre, (getTrigger env r.UserId (TrimPrefix x (r.UserId ++ "/".toList))).2 = none) →
      (getTrigger env r.UserId (TrimPrefix k (r.UserId ++ "/".toList))).2 = some e →
      ListTriggers env r = (Msg.zero, some e)) := by
  constructor
  · intro ts h
    simp only [ListTriggers, hclient, hlist, renderTriggers_ok env _ _ keys ts h]
  · intro pre k post e hkeys hpre hk
    subst hkeys
    simp only [ListTriggers, hclient, hlist, renderTriggers_fail env _ _ pre k post e hpre hk]

/-- Witness for C10: two stored triggers are listed in order; when the second one is missing
the listing fails with its error and the empty message. -/
theorem ListTriggers_listing_witness :
    ListTriggers (sampleStorage ["U1/focus".toList, "U1/lunch".toList]) sampleRequest =
        ({ ResponseType := ResponseTypeEphemeral,
           Text := "U1/focus =  (x)\nU1/lunch =  (x)".toList }, none) ∧
      ListTriggers (sampleStorage ["U1/focus".toList]) sampleRequest =
        (Msg.zero, some (Err.notRegistered "lunch".toList)) :=
  ⟨(ListTriggers_listing (sampleStorage ["U1/focus".toList, "U1/lunch".toList]) sampleRequest
      ["U1/focus".toList, "U1/lunch".toList] rfl rfl).1
      [{ Name := "U1/focus".toList, TeamId := [], Presence := PresenceAway, StatusText := [],
         StatusEmoji := "x".toList, DnD := false, Duration := 0 },
       { Name := "U1/lunch".toList, TeamId := [], Presence := PresenceAway, StatusText := [],
         StatusEmoji := "x".toList, DnD := false, Duration := 0 }] (by decide),
    (ListTriggers_listing (sampleStorage ["U1/focus".toList]) sampleRequest
      ["U1/focus".toList, "U1/lunch".toList] rfl rfl).2
      ["U1/focus".toList] "U1/lunch".toList [] (Err.notRegistered "lunch".toList) rfl
      (by decide) (by decide)⟩

end Slackoverload
